import Mathlib

/-!
Verification development for the record-to-SQL translation layer of
crate/commons-codec: shallow embedding of the per-source translators
(AWS DMS, AWS DynamoDB, MongoDB) and the shared model types, together
with theorems about the claims of the specification.

Python dictionaries are embedded as insertion-ordered association lists
(`List (κ × α)`); Python strings as Lean `String`; fallible code returns
`Except`; the mutable per-translator schema store is threaded as explicit
state.  Machine-level aliasing of Python list objects (relevant to the
`drop-table` restore logic of the DMS translator) is tracked explicitly
by recording, per table address, whether the live store entry is the very
list object held by the construction-time snapshot.
-/

namespace CommonsCodec

/-! ### Association-list helpers (Python `dict` embedding) -/

instance {ε α : Type} [DecidableEq ε] [DecidableEq α] : DecidableEq (Except ε α) :=
  fun a b =>
    match a, b with
    | .ok x, .ok y =>
      match decEq x y with
      | isTrue h => isTrue (by rw [h])
      | isFalse h => isFalse (by intro he; injection he; contradiction)
    | .error x, .error y =>
      match decEq x y with
      | isTrue h => isTrue (by rw [h])
      | isFalse h => isFalse (by intro he; injection he; contradiction)
    | .ok _, .error _ => isFalse (by intro he; injection he)
    | .error _, .ok _ => isFalse (by intro he; injection he)

/-- Lookup in an insertion-ordered association list (`d.get(k)`). -/
def alookup {κ α : Type} [DecidableEq κ] : List (κ × α) → κ → Option α
  | [], _ => none
  | (k, v) :: rest, key => if k = key then some v else alookup rest key

/-- Insert-or-assign (`d[k] = v`): Python dicts keep the position of an
existing key and append a fresh key at the end. -/
def aset {κ α : Type} [DecidableEq κ] : List (κ × α) → κ → α → List (κ × α)
  | [], key, v => [(key, v)]
  | (k, w) :: rest, key, v =>
    if k = key then (k, v) :: rest else (k, w) :: aset rest key v

/-- `d.update(e)`: assign every entry of `e` into `d`, in order. -/
def aupdate {κ α : Type} [DecidableEq κ] (d e : List (κ × α)) : List (κ × α) :=
  e.foldl (fun acc kv => aset acc kv.1 kv.2) d

/-- The keys of an association list, in order. -/
def akeys {κ α : Type} (d : List (κ × α)) : List κ := d.map Prod.fst

/-! ### Character-list string helpers -/

/-- Boolean prefix test on character lists. -/
def lIsPre : List Char → List Char → Bool
  | [], _ => true
  | _ :: _, [] => false
  | a :: as, b :: bs => a = b && lIsPre as bs

/-- `str.startswith(pre)`. -/
def strStarts (s pre : String) : Bool := lIsPre pre.data s.data

/-- `str.endswith(suf)`. -/
def strEnds (s suf : String) : Bool := lIsPre suf.data.reverse s.data.reverse

/-- Split a character list at the first occurrence of `sep`
(`str.split(sep, 1)`); `none` when `sep` does not occur. -/
def splitFirst (sep : Char) : List Char → Option (List Char × List Char)
  | [] => none
  | c :: rest =>
    if c = sep then some ([], rest)
    else (splitFirst sep rest).map (fun p => (c :: p.1, p.2))

/-- Helper for `splitAll`: `acc` holds the characters of the current piece,
in reverse. -/
def splitAllAux (sep : Char) : List Char → List Char → List (List Char)
  | [], acc => [acc.reverse]
  | c :: rest, acc =>
    if c = sep then acc.reverse :: splitAllAux sep rest []
    else splitAllAux sep rest (c :: acc)

/-- Split a character list at every occurrence of `sep` (`str.split(sep)`). -/
def splitAll (sep : Char) (l : List Char) : List (List Char) :=
  splitAllAux sep l []

/-- String append is associative. -/
theorem strAppendAssoc (a b c : String) : a ++ b ++ c = a ++ (b ++ c) := by
  cases a with
  | mk la =>
    cases b with
    | mk lb =>
      cases c with
      | mk lc =>
        show String.mk (la ++ lb ++ lc) = String.mk (la ++ (lb ++ lc))
        exact congrArg String.mk (List.append_assoc la lb lc)

theorem strDataAppend (a b : String) : (a ++ b).data = a.data ++ b.data := rfl

/-! ### Identifier quoting and table addresses

`TableAddress.fqn` and the DynamoDB/MongoDB translator constructors quote
relation names through `quote_relation_name` of `sqlalchemy-cratedb`, an
external collaborator library that is not part of this repository.
Modelled from the spec: per §3 and §4.1 (open question of §9) together with
the repository's tests (`tests/test_model.py`), a component that is already
quoted is left alone, a reserved word or a component that is not a plain
lowercase identifier is wrapped in double quotes, and any other component
is rendered unquoted (`public.foo`, but `"select"."from"`). -/

/-- A representative subset of the sink database's reserved words; the tests
exercise `select` and `from`. -/
def reservedWords : List String :=
  ["select", "from", "where", "table", "create", "insert", "update", "delete",
   "add", "alter", "and", "any", "as", "by", "column", "costs", "desc",
   "distinct", "else", "exists", "for", "if", "in", "index", "into", "is",
   "not", "null", "object", "on", "or", "order", "set", "then", "when"]

/-- A character that may appear in an unquoted identifier. -/
def plainChar (c : Char) : Bool := c.isLower || c.isDigit || c = '_'

/-- Does this identifier component require double quotes? -/
def needsQuoting (s : String) : Bool :=
  s = "" || s ∈ reservedWords || !(s.data.all plainChar) ||
    (match s.data with
     | [] => true
     | c :: _ => c.isDigit)

/-- Quote one identifier component when needed. -/
def quoteIdent (s : String) : String :=
  if needsQuoting s then "\"" ++ s ++ "\"" else s

/-- `quote_relation_name`: leave already-quoted input alone, split a
qualified name at the first dot and quote each component when needed. -/
def quoteRelationName (ident : String) : String :=
  if strStarts ident "\"" || strEnds ident "\"" then ident
  else
    match splitFirst '.' ident.data with
    | none => quoteIdent ident
    | some (schema, table) => quoteIdent ⟨schema⟩ ++ "." ++ quoteIdent ⟨table⟩

/-- `TableAddress`: immutable (schema, table) pair (`commons_codec.model`). -/
structure TableAddress where
  schema : String
  table : String
deriving DecidableEq, Repr

/-- Total rendering of the fully-qualified name, used by the translators
after the bucket sanity checks have established a non-empty schema. -/
def TableAddress.fqnStr (ta : TableAddress) : String :=
  quoteRelationName (ta.schema ++ "." ++ ta.table)

/-- `TableAddress.fqn`: raises when the schema name is empty/absent. -/
def TableAddress.fqn (ta : TableAddress) : Except String String :=
  if ta.schema = "" then
    .error "Unable to compute a full-qualified table name without schema name"
  else .ok ta.fqnStr

/-! ### Column types and the serializable column-type store -/

/-- `ColumnType`: declared semantic column types; the `StrEnum` values are
the lowercase member names. -/
inductive ColumnType where
  | MAP
  | OBJECT
deriving DecidableEq, Repr

/-- The `str` value of a `ColumnType` member. -/
def ColumnType.value : ColumnType → String
  | .MAP => "map"
  | .OBJECT => "object"

/-- `ColumnType(string)`: parse a lowercase type name, raising on an
unknown value. -/
def ColumnType.ofValue (s : String) : Except String ColumnType :=
  if s = "map" then .ok .MAP
  else if s = "object" then .ok .OBJECT
  else .error ("not a valid ColumnType: " ++ s)

/-- `ColumnTypeMapStore`: a dict from table address to a dict from column
name to column type. -/
def ColumnTypeMapStore : Type := List (TableAddress × List (String × ColumnType))

instance : DecidableEq ColumnTypeMapStore := by
  unfold ColumnTypeMapStore
  infer_instance

/-- `ColumnTypeMapStore.add`: `setdefault(table, {})` then
`self[table][column] = type_`. -/
def ColumnTypeMapStore.add (store : ColumnTypeMapStore) (table : TableAddress)
    (column : String) (type_ : ColumnType) : ColumnTypeMapStore :=
  let cur := (alookup store table).getD []
  aset store table (aset cur column type_)

/-- `ColumnTypeMapStore.to_dict`: flatten to `"schema:table:column"` keys
with lowercase type-name values. -/
def ColumnTypeMapStore.toFlatDict (store : ColumnTypeMapStore) :
    List (String × String) :=
  store.foldl
    (fun acc entry =>
      let tbl := entry.1.schema ++ ":" ++ entry.1.table
      entry.2.foldl
        (fun acc2 col => aset acc2 (tbl ++ ":" ++ col.1) col.2.value) acc)
    []

/-! ### Flat JSON objects

`ColumnTypeMapStore.to_json`/`from_json` pass through `json.dumps` and
`json.loads` applied to a flat string-to-string object.  The renderer below
follows `json.dumps`'s default layout (`", "` and `": "` separators) and
escapes `"` and `\`;
the parser accepts exactly that canonical layout (the only layout this
repository produces and its tests feed back in).  `json.dumps` additionally
escapes control and non-ASCII characters, which is a wire-format detail that
does not affect the round-trip behaviour modelled here. -/

/-- Escape `"` and `\` with a backslash. -/
def escapeChars : List Char → List Char
  | [] => []
  | c :: rest =>
    if c = '"' || c = '\\' then '\\' :: c :: escapeChars rest
    else c :: escapeChars rest

/-- Rendering of one JSON string literal, as a character list. -/
def rStrLit (s : String) : List Char :=
  '"' :: escapeChars s.data ++ ['"']

/-- Rendering of one `"key": "value"` entry. -/
def rEntry (kv : String × String) : List Char :=
  rStrLit kv.1 ++ ':' :: ' ' :: rStrLit kv.2

/-- Rendering of the comma-separated entry list. -/
def rEntries : List (String × String) → List Char
  | [] => []
  | [kv] => rEntry kv
  | kv :: rest => rEntry kv ++ ',' :: ' ' :: rEntries rest

/-- `json.dumps` of a flat string-to-string object. -/
def renderFlatJson (d : List (String × String)) : String :=
  ⟨'\x7b' :: (rEntries d ++ ['\x7d'])⟩

/-- Parse the body of a JSON string literal up to its closing quote,
returning the decoded characters and the rest of the input. -/
def parseStrBody : List Char → Option (List Char × List Char)
  | [] => none
  | c :: rest =>
    if c = '\\' then
      match rest with
      | [] => none
      | d :: rest2 => (parseStrBody rest2).map (fun p => (d :: p.1, p.2))
    else if c = '"' then some ([], rest)
    else (parseStrBody rest).map (fun p => (c :: p.1, p.2))

/-- Parse one `"key": "value"` entry. -/
def parseEntry (l : List Char) : Option ((String × String) × List Char) :=
  match l with
  | [] => none
  | c :: rest =>
    if c = '"' then
      match parseStrBody rest with
      | none => none
      | some (k, rest1) =>
        match rest1 with
        | ':' :: ' ' :: '"' :: rest2 =>
          match parseStrBody rest2 with
          | none => none
          | some (v, rest3) => some ((⟨k⟩, ⟨v⟩), rest3)
        | _ => none
    else none

/-- Parse a comma-separated entry list followed by the closing brace;
`fuel` bounds the recursion by the input length. -/
def parseEntriesLoop : Nat → List Char → Option (List (String × String) × List Char)
  | 0, _ => none
  | fuel + 1, l =>
    match parseEntry l with
    | none => none
    | some (kv, rest) =>
      match rest with
      | '\x7d' :: rest2 => some ([kv], rest2)
      | ',' :: ' ' :: rest2 =>
        match parseEntriesLoop fuel rest2 with
        | none => none
        | some (kvs, rest3) => some (kv :: kvs, rest3)
      | _ => none

/-- `json.loads` of a flat string-to-string object in canonical layout. -/
def parseFlatJson (s : String) : Option (List (String × String)) :=
  match s.data with
  | [] => none
  | c :: rest =>
    if c = '\x7b' then
      if rest = ['\x7d'] then some []
      else
        match parseEntriesLoop rest.length rest with
        | some (kvs, []) => some kvs
        | _ => none
    else none

/-- `ColumnTypeMapStore.to_json`. -/
def ColumnTypeMapStore.toJson (store : ColumnTypeMapStore) : String :=
  renderFlatJson store.toFlatDict

/-- The loop body of `ColumnTypeMapStore.from_dict`: split each flat key at
the colons into exactly three parts (raising otherwise), parse the type
name, and `add` into the store under construction. -/
def fromFlatAux : ColumnTypeMapStore → List (String × String) →
    Except String ColumnTypeMapStore
  | acc, [] => .ok acc
  | acc, (k, v) :: rest =>
    match splitAll ':' k.data with
    | [s, t, c] =>
      match ColumnType.ofValue v with
      | .ok ty => fromFlatAux (acc.add ⟨⟨s⟩, ⟨t⟩⟩ ⟨c⟩ ty) rest
      | .error e => .error e
    | _ => .error ("cannot unpack flat column-type key: " ++ k)

/-- `ColumnTypeMapStore.from_dict`: falsy input yields `None`, not an empty
store. -/
def ColumnTypeMapStore.fromFlatDict (data : Option (List (String × String))) :
    Except String (Option ColumnTypeMapStore) :=
  match data with
  | none => .ok none
  | some [] => .ok none
  | some d =>
    match fromFlatAux [] d with
    | .ok store => .ok (some store)
    | .error e => .error e

/-- `ColumnTypeMapStore.from_json`: falsy payload (`None` or `""`) yields
`None`; otherwise `json.loads` then `from_dict`. -/
def ColumnTypeMapStore.fromJson (payload : Option String) :
    Except String (Option ColumnTypeMapStore) :=
  match payload with
  | none => .ok none
  | some s =>
    if s = "" then .ok none
    else
      match parseFlatJson s with
      | none => .error "json.loads failed"
      | some d => ColumnTypeMapStore.fromFlatDict (some d)

/-! ### Values, SQL operations and parameterized clauses

`Value` embeds the Python values that flow through the translators: JSON
scalars, byte strings, lists and dicts.  Numeric literals are carried
symbolically (`num`), since no claim depends on numeric semantics.  A
Python list carries a `varied` flag mirroring `TaggableList`'s `"varied"`
tag; a plain list (never tagged) and a `TaggableList` tagged
`varied=False` behave identically everywhere in the translators and both
take `varied := false`. -/

inductive Value where
  | null
  | bool (b : Bool)
  | int (n : Int)
  | num (s : String)
  | str (s : String)
  | bin (s : String)
  | list (varied : Bool) (items : List Value)
  | obj (fields : List (String × Value))

/-- `isinstance(value, TaggableList) and value.get_tag("varied", False)`. -/
def Value.isVaried : Value → Bool
  | .list v _ => v
  | _ => false

/-- `isinstance(value, str)`. -/
def Value.isStr : Value → Bool
  | .str _ => true
  | _ => false

/-- SQL statement parameters: a single mapping or a list of mappings. -/
inductive SQLParams where
  | single (m : List (String × Value))
  | batch (ms : List (List (String × Value)))

/-- `SQLOperation`: statement template plus optional bound parameters. -/
structure SQLOperation where
  statement : String
  parameters : Option SQLParams

/-- `SQLParameterizedClause`: parallel `lvals`/`rvals` plus a name-to-value
map. -/
structure SQLClause where
  lvals : List String
  rvals : List String
  values : List (String × Value)

def SQLClause.empty : SQLClause := ⟨[], [], []⟩

/-- `SQLParameterizedClause.add`: an omitted `rval` becomes the `:name`
placeholder, and `values[name] = value`. -/
def SQLClause.add (c : SQLClause) (lval : String) (value : Value) (name : String)
    (rval : Option String) : SQLClause :=
  { lvals := c.lvals ++ [lval]
    rvals := c.rvals ++ [rval.getD (":" ++ name)]
    values := aset c.values name value }

/-- `SQLParameterizedClause.render`: join `lval=rval` pairs. -/
def SQLClause.render (c : SQLClause) (delimiter : String) : String :=
  String.intercalate delimiter
    ((c.lvals.zip c.rvals).map (fun p => p.1 ++ "=" ++ p.2))

/-- `render_lvals`: double-quoted column list. -/
def SQLClause.renderLvals (c : SQLClause) : String :=
  String.intercalate ", " (c.lvals.map (fun item => "\"" ++ item ++ "\""))

/-- `render_rvals`. -/
def SQLClause.renderRvals (c : SQLClause) : String :=
  String.intercalate ", " c.rvals

/-- SET-clause rendering. -/
def SQLClause.toSqlSet (c : SQLClause) : String := c.render ", "

/-- WHERE-clause rendering. -/
def SQLClause.toSqlWhere (c : SQLClause) : String := c.render " AND "

/-! ### `UniversalRecord` and its record splitter -/

/-- `UniversalRecord`: primary-key bucket, typed bucket, untyped bucket. -/
structure UniversalRecord where
  pk : List (String × Value)
  typed : List (String × Value)
  untyped : List (String × Value)

/-- `UniversalRecord.to_dict`. -/
def UniversalRecord.toDict (r : UniversalRecord) : List (String × Value) :=
  [("pk", .obj r.pk), ("typed", .obj r.typed), ("untyped", .obj r.untyped)]

/-- `UniversalRecord.from_record`: key fields go to `pk`, varied-tagged
lists go to `untyped`, and `typed` is the record with the keys of both
other buckets dissociated. -/
def UniversalRecord.fromRecord (record : List (String × Value))
    (primaryKeys : List String) : UniversalRecord :=
  let pk := record.filter (fun kv => kv.1 ∈ primaryKeys)
  let untyped := record.filter (fun kv => kv.2.isVaried)
  let typed := record.filter
    (fun kv => kv.1 ∉ akeys pk ∧ kv.1 ∉ akeys untyped)
  { pk := pk, typed := typed, untyped := untyped }

/-! ### AWS DMS translator (`commons_codec.transform.aws_dms`)

The translator is a state machine: one `DMSTranslatorCrateDB` instance owns
mutable per-table stores (primary keys, column types), a construction-time
snapshot of the caller-supplied stores, and per-table strategy/DDL flags.
`to_sql` threads the state explicitly.  The `pkAliased` component records
for which addresses the live primary-key entry is the *same Python list
object* as the snapshot entry: `drop_operation` assigns
`primary_keys[addr] = primary_keys_caller.get(addr, [])`, which shares the
snapshot's list, so a later `create-table` appends into the snapshot too.
The column-type store is never appended to after construction, so no such
tracking is needed for it. -/

inductive ColumnMappingStrategy where
  | DIRECT
  | UNIVERSAL
deriving DecidableEq, Repr

/-- The exceptions a DMS `to_sql` call can raise.  `noPrimaryKey` and
`decodeFailure` are `ValueError`/`json.JSONDecodeError` in the source; the
constructors keep them apart by their origin. -/
inductive DMSFailure where
  | messageFormat (msg : String)
  | unknownOperation (msg : String)
  | skipOperation (msg : String)
  | noPrimaryKey (msg : String)
  | decodeFailure (msg : String)
deriving DecidableEq, Repr

/-- `event["metadata"]` fields used by the translator; a missing key is
`none`. -/
structure DMSMetadata where
  operation : Option String
  schemaName : Option String
  tableName : Option String
deriving DecidableEq, Repr

/-- One entry of `control.table-def.columns`. -/
structure DMSColumnMeta where
  type : Option String
deriving DecidableEq, Repr

/-- `event["control"]["table-def"]`. -/
structure DMSTableDef where
  columns : List (String × DMSColumnMeta)
  primaryKey : List String
deriving DecidableEq, Repr

/-- A raw DMS event: `none` metadata stands for a missing or empty
`metadata` dict, `none` tableDef for a missing `control`/`table-def`. -/
structure DMSEvent where
  metadata : Option DMSMetadata
  tableDef : Option DMSTableDef
  data : List (String × Value)

/-- Is this optional string falsy (`None` or empty)? -/
def optFalsy : Option String → Bool
  | none => true
  | some s => s = ""

/-- Render an optional string the way a Python f-string does. -/
def pyStr : Option String → String
  | none => "None"
  | some s => s

/-- The decoded event carrier (`DMSBucket`), after the `awsdms_` diversion
tweak and the sanity checks of `__attrs_post_init__`. -/
structure DMSBucket where
  address : TableAddress
  operation : String
  tableDef : Option DMSTableDef
  data : List (String × Value)

/-- The metadata after the `__attrs_post_init__` tweak: a non-empty table
name starting with `awsdms_` diverts the schema to `dms`. -/
def dmsEffectiveMd (ev : DMSEvent) : DMSMetadata :=
  let md0 := ev.metadata.getD ⟨none, none, none⟩
  let tbl := md0.tableName.getD ""
  if tbl ≠ "" && strStarts tbl "awsdms_" then
    { md0 with schemaName := some "dms" }
  else md0

/-- Build the bucket: divert `awsdms_*` tables to schema `dms`, then check
metadata/operation and schema/table presence. -/
def mkDMSBucket (ev : DMSEvent) : Except DMSFailure DMSBucket :=
  let md := dmsEffectiveMd ev
  if ev.metadata.isNone || optFalsy md.operation then
    .error (.messageFormat "Record not in DMS format: metadata and/or operation is missing")
  else if optFalsy md.schemaName || optFalsy md.tableName then
    .error (.messageFormat ("Schema or table name missing or empty: schema="
      ++ pyStr md.schemaName ++ ", table=" ++ pyStr md.tableName))
  else
    .ok ⟨⟨md.schemaName.getD "", md.tableName.getD ""⟩, md.operation.getD "",
      ev.tableDef, ev.data⟩

/-- The caller's `metadata` dict as it reads after `DMSBucket`
construction: the `awsdms_` diversion of `__attrs_post_init__` writes
`schema-name = "dms"` into the caller's metadata dict in place, and it
does so before the sanity checks run, so also on events the checks
reject; an absent metadata dict is untouched (the write then lands on the
temporary produced by `event.get("metadata", \x7b\x7d)`). -/
def dmsCallerMd (ev : DMSEvent) : Option DMSMetadata :=
  ev.metadata.map (fun _ => dmsEffectiveMd ev)

/-- The mutable state of one `DMSTranslatorCrateDB` instance. -/
structure DMSState where
  primaryKeys : List (TableAddress × List String)
  columnTypes : List (TableAddress × List (String × ColumnType))
  mappingStrategy : List (TableAddress × ColumnMappingStrategy)
  ignoreDdl : List (TableAddress × Bool)
  primaryKeysCaller : List (TableAddress × List String)
  columnTypesCaller : List (TableAddress × List (String × ColumnType))
  pkAliased : List TableAddress
deriving DecidableEq, Repr

/-- `DMSTranslatorCrateDB.__init__`: keep the caller stores and take the
deep-copy snapshots; no live entry is aliased with its snapshot yet. -/
def DMSState.init (primaryKeys : List (TableAddress × List String))
    (columnTypes : List (TableAddress × List (String × ColumnType)))
    (mappingStrategy : List (TableAddress × ColumnMappingStrategy))
    (ignoreDdl : List (TableAddress × Bool)) : DMSState :=
  ⟨primaryKeys, columnTypes, mappingStrategy, ignoreDdl, primaryKeys,
    columnTypes, []⟩

/-- The per-record context captured by
`DMSTranslatorCrateDBRecordBase.__init__`. -/
structure DMSRecordCtx where
  address : TableAddress
  primaryKeys : List String
  columnTypes : List (String × ColumnType)
  ignoreDdl : Bool
  strategy : ColumnMappingStrategy
deriving DecidableEq, Repr

/-- Append each declared primary key not already present, preserving
order. -/
def learnPks (cur declared : List String) : List String :=
  declared.foldl (fun acc pk => if pk ∈ acc then acc else acc ++ [pk]) cur

/-- `DMSTranslatorCrateDBRecordBase.__init__` together with the factory's
strategy resolution: `setdefault` the three per-table entries and, unless
DDL is ignored, learn the declared primary keys.  When the live entry is
aliased with the snapshot entry, the append is visible in the snapshot
too. -/
def dmsRecordInit (st : DMSState) (b : DMSBucket) : DMSState × DMSRecordCtx :=
  let addr := b.address
  let strat := (alookup st.mappingStrategy addr).getD .DIRECT
  let pk0 := (alookup st.primaryKeys addr).getD []
  let ct0 := (alookup st.columnTypes addr).getD []
  let ig := (alookup st.ignoreDdl addr).getD false
  let declared := (b.tableDef.map DMSTableDef.primaryKey).getD []
  let pk1 := if ig then pk0 else learnPks pk0 declared
  let st1 : DMSState :=
    { st with
      primaryKeys := aset st.primaryKeys addr pk1
      columnTypes := aset st.columnTypes addr ct0
      ignoreDdl := aset st.ignoreDdl addr ig
      primaryKeysCaller :=
        if addr ∈ st.pkAliased then aset st.primaryKeysCaller addr pk1
        else st.primaryKeysCaller }
  (st1, ⟨addr, pk1, ct0, ig, strat⟩)

/-- `json.loads`, modelled for the flat string-valued objects this
repository's DMS corpus carries in CLOB columns; other JSON shapes are
modelled as decode failures. -/
def jsonLoadsFlatValue (s : String) : Except String Value :=
  match parseFlatJson s with
  | some d => .ok (.obj (d.map (fun kv => (kv.1, .str kv.2))))
  | none => .error ("json.loads failed: " ++ s)

/-- `decode_data`: for every column declared MAP/OBJECT whose value is a
string, parse the JSON payload and write it back into the event's data
dict. -/
def decodeData : List (String × ColumnType) → List (String × Value) →
    Except String (List (String × Value))
  | [], data => .ok data
  | (col, ty) :: rest, data =>
    match alookup data col with
    | none => decodeData rest data
    | some v =>
      if (ty = .MAP || ty = .OBJECT) && v.isStr then
        match v with
        | .str s =>
          match jsonLoadsFlatValue s with
          | .ok v2 => decodeData rest (aset data col v2)
          | .error e => .error e
        | _ => decodeData rest (aset data col v)
      else decodeData rest (aset data col v)

/-- `resolve_type`: map the DMS `INT*` family, defaulting to `TEXT`. -/
def resolveType (ltype : String) : String :=
  if ltype = "INT8" then "INT1"
  else if ltype = "INT16" then "INT2"
  else if ltype = "INT32" then "INT4"
  else if ltype = "INT64" then "INT8"
  else "TEXT"

/-- UNIVERSAL `pk_clause`: inline per-key type and constraint
declarations. -/
def universalPkClause (ctx : DMSRecordCtx) (b : DMSBucket) : String :=
  if ctx.primaryKeys ≠ [] then
    let columns := (b.tableDef.map DMSTableDef.columns).getD []
    let pkClauses := ctx.primaryKeys.map (fun pkName =>
      let colMeta := alookup columns pkName
      let ltype := (colMeta.bind DMSColumnMeta.type).getD "TEXT"
      "\"" ++ pkName ++ "\" " ++ resolveType ltype ++ " PRIMARY KEY")
    if pkClauses ≠ [] then " AS (" ++ String.intercalate ", " pkClauses ++ ")"
    else ""
  else ""

/-- DIRECT `columns_ddl`: one quoted column per declared source field with
a best-effort type, primary keys inline. -/
def directColumnsDdl (ctx : DMSRecordCtx) (b : DMSBucket) : List String :=
  let columns := (b.tableDef.map DMSTableDef.columns).getD []
  columns.map (fun col =>
    let ltype := (col.2.type).getD "TEXT"
    let item := "\"" ++ col.1 ++ "\" " ++ resolveType ltype
    if col.1 ∈ ctx.primaryKeys then item ++ " PRIMARY KEY" else item)

/-- `create_operation` of the resolved strategy. -/
def dmsCreateOp (ctx : DMSRecordCtx) (b : DMSBucket) :
    Except DMSFailure SQLOperation :=
  if ctx.ignoreDdl then
    .error (.skipOperation "Ignoring DMS DDL event: create-table")
  else
    match ctx.strategy with
    | .UNIVERSAL =>
      .ok ⟨"CREATE TABLE IF NOT EXISTS " ++ ctx.address.fqnStr
        ++ " (pk OBJECT(STRICT)" ++ universalPkClause ctx b
        ++ ", data OBJECT(DYNAMIC), aux OBJECT(IGNORED));", none⟩
    | .DIRECT =>
      .ok ⟨"CREATE TABLE IF NOT EXISTS " ++ ctx.address.fqnStr ++ " ("
        ++ String.intercalate ", " (directColumnsDdl ctx b) ++ ");", none⟩

/-- `insert_operation` of the resolved strategy, applied to the decoded
data. -/
def dmsInsertOp (ctx : DMSRecordCtx) (data2 : List (String × Value)) :
    SQLOperation :=
  match ctx.strategy with
  | .UNIVERSAL =>
    let record := UniversalRecord.fromRecord data2 ctx.primaryKeys
    ⟨"INSERT INTO " ++ ctx.address.fqnStr
      ++ " (pk, data, aux) VALUES (:pk, :typed, :untyped) ON CONFLICT DO NOTHING;",
      some (.single record.toDict)⟩
  | .DIRECT =>
    let clause := data2.foldl
      (fun c kv => c.add kv.1 kv.2 kv.1 none) SQLClause.empty
    ⟨"INSERT INTO " ++ ctx.address.fqnStr ++ " (" ++ clause.renderLvals
      ++ ") VALUES (" ++ clause.renderRvals ++ ") ON CONFLICT DO NOTHING;",
      some (.single data2)⟩

/-- `update_clause` of the resolved strategy: primary-key columns are
skipped. -/
def dmsUpdateClause (ctx : DMSRecordCtx) (data : List (String × Value)) :
    SQLClause :=
  data.foldl
    (fun c kv =>
      if kv.1 ∈ ctx.primaryKeys then c
      else
        match ctx.strategy with
        | .UNIVERSAL => c.add ("data['" ++ kv.1 ++ "']") kv.2 kv.1 none
        | .DIRECT => c.add kv.1 kv.2 kv.1 none)
    SQLClause.empty

/-- `keys_to_where` of the resolved strategy: raises when no primary key is
known; skips keys whose value is missing or `None`. -/
def dmsKeysToWhere (ctx : DMSRecordCtx) (data : List (String × Value)) :
    Except DMSFailure SQLClause :=
  if ctx.primaryKeys = [] then
    .error (.noPrimaryKey "Unable to invoke DML operation without primary key information")
  else
    .ok (ctx.primaryKeys.foldl
      (fun c keyName =>
        match alookup data keyName with
        | none => c
        | some .null => c
        | some v =>
          match ctx.strategy with
          | .UNIVERSAL => c.add ("pk['" ++ keyName ++ "']") v keyName none
          | .DIRECT => c.add keyName v keyName none)
      SQLClause.empty)

/-- The value of one `to_sql` call: the produced operation or the raised
exception, the translator state afterwards, and the event's `data` and
`metadata` dicts as the caller sees them afterwards. -/
structure DMSCall where
  result : Except DMSFailure SQLOperation
  state : DMSState
  eventData : List (String × Value)
  eventMetadata : Option DMSMetadata

/-- `drop_operation`: restore both live stores for the address from the
construction-time snapshot.  The restored primary-key entry is the
snapshot's own list object, so the address becomes aliased. -/
def dmsDropOp (st : DMSState) (ctx : DMSRecordCtx)
    (evData : List (String × Value)) (evMd : Option DMSMetadata) : DMSCall :=
  if ctx.ignoreDdl then
    ⟨.error (.skipOperation "Ignoring DMS DDL event: drop-table"), st, evData,
      evMd⟩
  else
    let addr := ctx.address
    let restoredPk := (alookup st.primaryKeysCaller addr).getD []
    let restoredCt := (alookup st.columnTypesCaller addr).getD []
    let st2 : DMSState :=
      { st with
        primaryKeys := aset st.primaryKeys addr restoredPk
        columnTypes := aset st.columnTypes addr restoredCt
        pkAliased :=
          if (alookup st.primaryKeysCaller addr).isSome &&
              addr ∉ st.pkAliased then
            st.pkAliased ++ [addr]
          else st.pkAliased }
    ⟨.ok ⟨"DROP TABLE IF EXISTS " ++ addr.fqnStr ++ ";", none⟩, st2, evData,
      evMd⟩

/-- `DMSTranslatorCrateDB.to_sql`: decode the bucket, resolve the strategy,
run the record initialiser (which learns declared primary keys), then
dispatch on the operation kind. -/
def dmsToSql (st : DMSState) (ev : DMSEvent) : DMSCall :=
  match mkDMSBucket ev with
  | .error e => ⟨.error e, st, ev.data, dmsCallerMd ev⟩
  | .ok b =>
    let (st1, ctx) := dmsRecordInit st b
    if b.operation = "create-table" then
      ⟨dmsCreateOp ctx b, st1, ev.data, dmsCallerMd ev⟩
    else if b.operation = "drop-table" then
      dmsDropOp st1 ctx ev.data (dmsCallerMd ev)
    else if b.operation = "load" || b.operation = "insert" then
      match decodeData ctx.columnTypes b.data with
      | .error e => ⟨.error (.decodeFailure e), st1, ev.data, dmsCallerMd ev⟩
      | .ok data2 => ⟨.ok (dmsInsertOp ctx data2), st1, data2, dmsCallerMd ev⟩
    else if b.operation = "update" then
      match decodeData ctx.columnTypes b.data with
      | .error e => ⟨.error (.decodeFailure e), st1, ev.data, dmsCallerMd ev⟩
      | .ok data2 =>
        let sc := dmsUpdateClause ctx data2
        match dmsKeysToWhere ctx data2 with
        | .error e => ⟨.error e, st1, data2, dmsCallerMd ev⟩
        | .ok wc =>
          ⟨.ok ⟨"UPDATE " ++ ctx.address.fqnStr ++ " SET " ++ sc.toSqlSet
            ++ " WHERE " ++ wc.toSqlWhere ++ ";",
            some (.single (aupdate sc.values wc.values))⟩, st1, data2,
            dmsCallerMd ev⟩
    else if b.operation = "delete" then
      match dmsKeysToWhere ctx ev.data with
      | .error e => ⟨.error e, st1, ev.data, dmsCallerMd ev⟩
      | .ok wc =>
        ⟨.ok ⟨"DELETE FROM " ++ ctx.address.fqnStr ++ " WHERE "
          ++ wc.toSqlWhere ++ ";", some (.single wc.values)⟩, st1, ev.data,
          dmsCallerMd ev⟩
    else
      ⟨.error (.unknownOperation ("DMS CDC event operation unknown: "
        ++ b.operation)), st1, ev.data, dmsCallerMd ev⟩

/-! ### DynamoDB translator (`commons_codec.transform.dynamodb`)

`AttrValue` is the DynamoDB wire format: a tagged value whose tag is the
single key of the wire-level dict.  `CrateDBTypeDeserializer` converts it
to a native value with the sink-oriented adjustments of the source:
numbers become floats (carried symbolically here), binaries pass through,
the three set types become ordered lists, and a list records in its
`varied` tag whether the wire-level type tags of its elements differ.

The translator classes themselves (`DynamoTranslatorBase`,
`DynamoDBFullLoadTranslator`, `DynamoDBCDCTranslator`) are modelled from
the spec: the file under `src/` is a stale copy (it imports `DualRecord`,
which `commons_codec.model` no longer defines) predating the pk-column
layout; the current behaviour is pinned by spec §4.4 and by
`tests/transform/test_dynamodb_full.py` / `test_dynamodb_cdc.py`:
`decode_record` splits through `UniversalRecord.from_record` with the key
schema's (or the event's `Keys`) names, full-load INSERTs use the
three-column layout without a conflict clause, and CDC INSERT/MODIFY/
REMOVE use `ON CONFLICT DO NOTHING` / whole-object SET / whole-key
WHERE. -/

inductive AttrValue where
  | S (s : String)
  | N (s : String)
  | B (s : String)
  | BOOL (b : Bool)
  | NULL
  | M (fields : List (String × AttrValue))
  | L (items : List AttrValue)
  | SS (items : List String)
  | NS (items : List String)
  | BS (items : List String)

/-- The wire-level type descriptor: the single key of the wire dict. -/
def AttrValue.tag : AttrValue → String
  | .S _ => "S"
  | .N _ => "N"
  | .B _ => "B"
  | .BOOL _ => "BOOL"
  | .NULL => "NULL"
  | .M _ => "M"
  | .L _ => "L"
  | .SS _ => "SS"
  | .NS _ => "NS"
  | .BS _ => "BS"

/-- `_deserialize_l`'s tag inspection: `true` iff some element's wire tag
differs from the first element's (vacuously `false` for the empty
list). -/
def tagsVaried : List AttrValue → Bool
  | [] => false
  | x :: xs => xs.any (fun y => y.tag ≠ x.tag)

mutual

/-- `CrateDBTypeDeserializer.deserialize`. -/
def deserialize : AttrValue → Value
  | .S s => .str s
  | .N s => .num s
  | .B s => .bin s
  | .BOOL b => .bool b
  | .NULL => .null
  | .M fields => .obj (deserializeFields fields)
  | .L items => .list (tagsVaried items) (deserializeItems items)
  | .SS items => .list false (items.map Value.str)
  | .NS items => .list false (items.map Value.num)
  | .BS items => .list false (items.map Value.bin)

def deserializeItems : List AttrValue → List Value
  | [] => []
  | x :: xs => deserialize x :: deserializeItems xs

def deserializeFields : List (String × AttrValue) → List (String × Value)
  | [] => []
  | (k, v) :: xs => (k, deserialize v) :: deserializeFields xs

end

/-- `decode_record`: deserialize every field, then split through
`UniversalRecord.from_record` with the effective key names. -/
def ddbDecodeRecord (keyNames : List String)
    (item : List (String × AttrValue)) : UniversalRecord :=
  UniversalRecord.fromRecord (deserializeFields item) keyNames

/-- `DynamoDBFullLoadTranslator.to_sql` on a batch of records, for a
translator constructed over `tableName` (already passed through
`quote_relation_name`) with the key names of its declared primary-key
schema. -/
def ddbFullLoadToSql (tableName : String) (keyNames : List String)
    (data : List (List (String × AttrValue))) : SQLOperation :=
  ⟨"INSERT INTO " ++ quoteRelationName tableName
    ++ " (pk, data, aux) VALUES (:pk, :typed, :untyped);",
    some (.batch ((data.map (fun record =>
      (ddbDecodeRecord keyNames record).toDict))))⟩

/-- A DynamoDB CDC stream event. -/
structure DDBEvent where
  eventSource : Option String
  eventName : Option String
  keys : List (String × AttrValue)
  newImage : List (String × AttrValue)

/-- `DynamoDBCDCTranslator.to_sql`. -/
def ddbCdcToSql (tableName : String) (event : DDBEvent) :
    Except String SQLOperation :=
  let tbl := quoteRelationName tableName
  if event.eventSource ≠ some "aws:dynamodb" then
    .error ("Unknown eventSource: " ++ pyStr event.eventSource)
  else if event.eventName = some "INSERT" then
    let record := ddbDecodeRecord (akeys event.keys) event.newImage
    .ok ⟨"INSERT INTO " ++ tbl
      ++ " (pk, data, aux) VALUES (:pk, :typed, :untyped) ON CONFLICT DO NOTHING;",
      some (.single record.toDict)⟩
  else if event.eventName = some "MODIFY" then
    let record := ddbDecodeRecord (akeys event.keys) event.newImage
    .ok ⟨"UPDATE " ++ tbl ++ " SET data=:typed, aux=:untyped WHERE pk=:pk;",
      some (.single record.toDict)⟩
  else if event.eventName = some "REMOVE" then
    let record := ddbDecodeRecord (akeys event.keys) event.keys
    .ok ⟨"DELETE FROM " ++ tbl ++ " WHERE pk=:pk;",
      some (.single record.toDict)⟩
  else
    .error ("Unknown CDC event name: " ++ pyStr event.eventName)

/-! ### MongoDB CDC translator (`commons_codec.transform.mongodb`)

The extended-JSON converter (`MongoDBCrateDBConverter.decode_document`) is
passed in abstractly as `convert`: no claim constrains its output, and the
routing of `to_sql` is independent of it.  `documentKeyId` carries
`str(event["documentKey"]["_id"])` when the key is present; `str(None)` for
an absent key renders as `"None"`, which `mongoGetDocumentKey`
reproduces. -/

structure MongoEvent where
  operationType : Option String
  documentKeyId : Option String
  fullDocument : Option Value

/-- `get_document_key`: the stringified document OID. -/
def mongoGetDocumentKey (ev : MongoEvent) : String :=
  ev.documentKeyId.getD "None"

/-- `where_clause`: `oid = '<document key>'`. -/
def mongoWhereClause (ev : MongoEvent) : String :=
  "oid = '" ++ mongoGetDocumentKey ev ++ "'"

/-- `MongoDBCDCTranslator.to_sql`: route on `operationType`.  The source's
missing/empty error message interpolates the whole event; the model keeps
the fixed prefix. -/
def mongoCdcToSql (convert : Value → Value) (tableName : String)
    (ev : MongoEvent) : Except String (Option SQLOperation) :=
  let tbl := quoteRelationName tableName
  if optFalsy ev.operationType then
    .error "Operation Type missing or empty"
  else
    let op := ev.operationType.getD ""
    if op = "insert" then
      let oid := mongoGetDocumentKey ev
      let record := convert (ev.fullDocument.getD .null)
      .ok (some ⟨"INSERT INTO " ++ tbl ++ " (oid, data) VALUES (:oid, :record);",
        some (.single [("oid", .str oid), ("record", record)])⟩)
    else if op = "update" || op = "replace" then
      let record := convert (ev.fullDocument.getD .null)
      .ok (some ⟨"UPDATE " ++ tbl ++ " SET data = :record WHERE "
        ++ mongoWhereClause ev ++ ";", some (.single [("record", record)])⟩)
    else if op = "delete" then
      .ok (some ⟨"DELETE FROM " ++ tbl ++ " WHERE " ++ mongoWhereClause ev ++ ";",
        none⟩)
    else if op = "drop" then .ok none
    else if op = "invalidate" then .ok none
    else .error ("Unknown CDC operation type: " ++ op)

/-! ### Association-list lemmas -/

theorem alookup_aset_self {κ α : Type} [DecidableEq κ] (d : List (κ × α))
    (k : κ) (v : α) : alookup (aset d k v) k = some v := by
  induction d with
  | nil => simp [aset, alookup]
  | cons hd tl ih =>
    by_cases h : hd.1 = k
    · simp [aset, h, alookup]
    · simp [aset, h, alookup, ih]

theorem alookup_aset_ne {κ α : Type} [DecidableEq κ] (d : List (κ × α))
    (k k' : κ) (v : α) (h : k' ≠ k) :
    alookup (aset d k v) k' = alookup d k' := by
  have hkk : ¬ k = k' := fun he => h he.symm
  induction d with
  | nil => simp only [aset, alookup, if_neg hkk]
  | cons hd tl ih =>
    obtain ⟨k0, v0⟩ := hd
    by_cases hh : k0 = k
    · have hne : ¬ k0 = k' := fun he => hkk (hh.symm.trans he)
      simp only [aset, if_pos hh, alookup, if_neg hne]
    · by_cases hk : k0 = k'
      · simp only [aset, if_neg hh, alookup, if_pos hk]
      · simp only [aset, if_neg hh, alookup, if_neg hk, ih]

theorem akeys_aset_of_mem {κ α : Type} [DecidableEq κ] (d : List (κ × α))
    (k : κ) (v w : α) (h : alookup d k = some v) :
    akeys (aset d k w) = akeys d := by
  induction d with
  | nil => simp [alookup] at h
  | cons hd tl ih =>
    by_cases hh : hd.1 = k
    · simp [aset, hh, akeys]
    · simp [alookup, hh] at h
      simp [aset, hh, akeys] at ih ⊢
      exact ih h

/-- With duplicate-free keys, an association list holds at most one entry
per key. -/
theorem assoc_unique {κ α : Type} (l : List (κ × α))
    (hn : (akeys l).Nodup) (k : κ) (v w : α)
    (hv : (k, v) ∈ l) (hw : (k, w) ∈ l) : v = w := by
  induction l with
  | nil => cases hv
  | cons hd tl ih =>
    simp only [akeys, List.map_cons, List.nodup_cons] at hn
    rcases List.mem_cons.mp hv with he | hv2
    · rcases List.mem_cons.mp hw with he2 | hw2
      · exact congrArg Prod.snd (he.trans he2.symm)
      · have hk1 : k ∈ List.map Prod.fst tl := List.mem_map_of_mem Prod.fst hw2
        have hke : k = hd.1 := congrArg Prod.fst he
        exact absurd (hke ▸ hk1) hn.1
    · rcases List.mem_cons.mp hw with he2 | hw2
      · have hk1 : k ∈ List.map Prod.fst tl := List.mem_map_of_mem Prod.fst hv2
        have hke : k = hd.1 := congrArg Prod.fst he2
        exact absurd (hke ▸ hk1) hn.1
      · exact ih hn.2 hv2 hw2

/-! ### Concrete fixtures shared by witnesses and counterexamples

These mirror the message corpus of `tests/transform/`. -/

def taFoo : TableAddress := ⟨"public", "foo"⟩

/-- Column-type store declaring `attributes` of `public.foo` as OBJECT. -/
def ctStoreFoo : List (TableAddress × List (String × ColumnType)) :=
  [(taFoo, [("attributes", ColumnType.OBJECT)])]

/-- Translator seeded for UNIVERSAL mapping of `public.foo`. -/
def stUniFoo : DMSState := DMSState.init [] ctStoreFoo [(taFoo, .UNIVERSAL)] []

/-- Translator seeded for DIRECT mapping of `public.foo`. -/
def stDirFoo : DMSState := DMSState.init [] ctStoreFoo [(taFoo, .DIRECT)] []

def tdFoo : DMSTableDef :=
  { columns := [("age", ⟨some "INT32"⟩), ("attributes", ⟨some "STRING"⟩),
                ("id", ⟨some "INT32"⟩), ("name", ⟨some "STRING"⟩)]
    primaryKey := ["id"] }

def evCreateFoo : DMSEvent :=
  { metadata := some ⟨some "create-table", some "public", some "foo"⟩
    tableDef := some tdFoo, data := [] }

def evDropFoo : DMSEvent :=
  { metadata := some ⟨some "drop-table", some "public", some "foo"⟩
    tableDef := none, data := [] }

def evInsertFoo : DMSEvent :=
  { metadata := some ⟨some "insert", some "public", some "foo"⟩
    tableDef := none
    data := [("age", .int 31), ("attributes", .str "\x7b\"baz\": \"qux\"\x7d"),
             ("id", .int 46), ("name", .str "Jane")] }

def evUpdateFoo : DMSEvent :=
  { metadata := some ⟨some "update", some "public", some "foo"⟩
    tableDef := none
    data := [("age", .int 33), ("attributes", .str "\x7b\"foo\": \"bar\"\x7d"),
             ("id", .int 42), ("name", .str "John")] }

/-- The `MSG_CONTROL_AWSDMS` control event of the test corpus: a
create-table event for `awsdms_apply_exceptions` arriving with an empty
schema name. -/
def evControlAwsdms : DMSEvent :=
  { metadata := some ⟨some "create-table", some "",
      some "awsdms_apply_exceptions"⟩
    tableDef := some
      { columns := [("ERROR", ⟨some "STRING"⟩),
                    ("ERROR_TIME", ⟨some "TIMESTAMP"⟩),
                    ("STATEMENT", ⟨some "STRING"⟩),
                    ("TABLE_NAME", ⟨some "STRING"⟩),
                    ("TABLE_OWNER", ⟨some "STRING"⟩),
                    ("TASK_NAME", ⟨some "STRING"⟩)]
        primaryKey := [] }
    data := [] }

/-- A create-table event declaring the composite key `["id", "name"]`. -/
def evCreateFooIdName : DMSEvent :=
  { metadata := some ⟨some "create-table", some "public", some "foo"⟩
    tableDef := some { columns := tdFoo.columns, primaryKey := ["id", "name"] }
    data := [] }

/-- Translator whose caller seeded `public.foo` with primary key `["id"]`. -/
def stSeedFoo : DMSState :=
  DMSState.init [(taFoo, ["id"])] [] [(taFoo, .UNIVERSAL)] []

/-- The state after create(id,name); drop; create(id,name); drop. -/
def stAfterTwoDropCycles : DMSState :=
  (dmsToSql (dmsToSql (dmsToSql (dmsToSql stSeedFoo evCreateFooIdName).state
    evDropFoo).state evCreateFooIdName).state evDropFoo).state

/-- C2: the spec and the source's own comment promise that a `drop-table`
event restores the primary-key store for the address to the caller-supplied
construction-time value (a deep copy taken once at startup), regardless of
preceding create/drop cycles.  The code restores the *reference* to the
snapshot list instead of a copy, so keys learned by a `create-table` that
follows the first drop are appended into the snapshot itself, and the
second drop "restores" the corrupted snapshot: with caller-seeded key
`["id"]` and two create(id,name)/drop cycles, the store ends as
`["id", "name"]`, although the first cycle alone restores `["id"]`
correctly. -/
theorem dms_drop_restore_aliasing_bug :
    alookup stSeedFoo.primaryKeysCaller taFoo = some ["id"] ∧
    alookup (dmsToSql (dmsToSql stSeedFoo evCreateFooIdName).state
      evDropFoo).state.primaryKeys taFoo = some ["id"] ∧
    alookup stAfterTwoDropCycles.primaryKeys taFoo = some ["id", "name"] := by
  refine ⟨rfl, rfl, rfl⟩

/-- C9: MongoDB CDC routing: `delete` yields a DELETE keyed by the document
id, `drop` and `invalidate` yield no operation, a missing or empty
operation kind raises, and any other operation kind raises an
unknown-operation error. -/
theorem mongo_cdc_routing (convert : Value → Value) (tableName : String)
    (ev : MongoEvent) :
    (ev.operationType = some "delete" →
      mongoCdcToSql convert tableName ev =
        .ok (some ⟨"DELETE FROM " ++ quoteRelationName tableName ++ " WHERE "
          ++ mongoWhereClause ev ++ ";", none⟩)) ∧
    (ev.operationType = some "drop" →
      mongoCdcToSql convert tableName ev = .ok none) ∧
    (ev.operationType = some "invalidate" →
      mongoCdcToSql convert tableName ev = .ok none) ∧
    (optFalsy ev.operationType = true →
      mongoCdcToSql convert tableName ev =
        .error "Operation Type missing or empty") ∧
    (∀ op, ev.operationType = some op → op ≠ "" →
      op ∉ ["insert", "update", "replace", "delete", "drop", "invalidate"] →
      mongoCdcToSql convert tableName ev =
        .error ("Unknown CDC operation type: " ++ op)) := by
  refine ⟨?_, ?_, ?_, ?_, ?_⟩
  · intro h
    simp [mongoCdcToSql, h, optFalsy]
  · intro h
    simp [mongoCdcToSql, h, optFalsy]
  · intro h
    simp [mongoCdcToSql, h, optFalsy]
  · intro h
    simp [mongoCdcToSql, h]
  · intro op hop hne hmem
    simp only [List.mem_cons, List.mem_singleton, not_or] at hmem
    obtain ⟨h1, h2, h3, h4, h5, h6, _⟩ := hmem
    simp [mongoCdcToSql, hop, optFalsy, hne, h1, h2, h3, h4, h5, h6]

/-- C9 witness: the routing at the concrete events of the test corpus. -/
theorem mongo_cdc_routing_witness :
    mongoCdcToSql id "foo"
      ⟨some "delete", some "669693c5002ef91ea9c7a562", none⟩ =
      .ok (some ⟨"DELETE FROM " ++ quoteRelationName "foo" ++ " WHERE "
        ++ mongoWhereClause ⟨some "delete", some "669693c5002ef91ea9c7a562", none⟩
        ++ ";", none⟩) ∧
    mongoCdcToSql id "foo" ⟨some "drop", none, none⟩ = .ok none ∧
    mongoCdcToSql id "foo" ⟨some "invalidate", none, none⟩ = .ok none ∧
    mongoCdcToSql id "foo" ⟨none, none, none⟩ =
      .error "Operation Type missing or empty" ∧
    mongoCdcToSql id "foo" ⟨some "foobar", none, none⟩ =
      .error ("Unknown CDC operation type: " ++ "foobar") := by
  refine ⟨(mongo_cdc_routing id "foo" _).1 rfl,
    (mongo_cdc_routing id "foo" _).2.1 rfl,
    (mongo_cdc_routing id "foo" _).2.2.1 rfl,
    (mongo_cdc_routing id "foo" _).2.2.2.1 (by decide),
    (mongo_cdc_routing id "foo" _).2.2.2.2 "foobar" rfl (by decide) (by decide)⟩

/-- C10: `UniversalRecord.from_record` is a cover, not a strict partition:
no input field is lost (every key lands in `pk`, `typed` or `untyped`), the
typed bucket's keys are disjoint from both other buckets, and a field that
is both a primary key and a varied-tagged list appears in `pk` *and* in
`untyped`. -/
theorem universal_record_split_cover (record : List (String × Value))
    (primaryKeys : List String) :
    (∀ kv ∈ record,
      kv.1 ∈ akeys (UniversalRecord.fromRecord record primaryKeys).pk ∨
      kv.1 ∈ akeys (UniversalRecord.fromRecord record primaryKeys).typed ∨
      kv.1 ∈ akeys (UniversalRecord.fromRecord record primaryKeys).untyped) ∧
    (∀ k, k ∈ akeys (UniversalRecord.fromRecord record primaryKeys).typed →
      k ∉ akeys (UniversalRecord.fromRecord record primaryKeys).pk ∧
      k ∉ akeys (UniversalRecord.fromRecord record primaryKeys).untyped) ∧
    (∀ kv ∈ record, kv.1 ∈ primaryKeys → kv.2.isVaried = true →
      kv ∈ (UniversalRecord.fromRecord record primaryKeys).pk ∧
      kv ∈ (UniversalRecord.fromRecord record primaryKeys).untyped) := by
  refine ⟨?_, ?_, ?_⟩
  · intro kv hkv
    by_cases hpk : kv.1 ∈ primaryKeys
    · exact Or.inl (List.mem_map_of_mem Prod.fst
        (List.mem_filter.mpr ⟨hkv, by simpa using hpk⟩))
    · by_cases hvar : kv.2.isVaried
      · exact Or.inr (Or.inr (List.mem_map_of_mem Prod.fst
          (List.mem_filter.mpr ⟨hkv, by simpa using hvar⟩)))
      · by_cases htyped : kv.1 ∈ akeys (UniversalRecord.fromRecord record primaryKeys).untyped
        · exact Or.inr (Or.inr htyped)
        · refine Or.inr (Or.inl (List.mem_map_of_mem Prod.fst
            (List.mem_filter.mpr ⟨hkv, ?_⟩)))
          have hnpk : kv.1 ∉ akeys (UniversalRecord.fromRecord record primaryKeys).pk := by
            intro hmem
            simp only [UniversalRecord.fromRecord, akeys, List.mem_map] at hmem
            obtain ⟨kw, hkw, hfst⟩ := hmem
            have := (List.mem_filter.mp hkw).2
            simp only [decide_eq_true_eq] at this
            exact hpk (hfst ▸ this)
          simp only [UniversalRecord.fromRecord] at hnpk htyped ⊢
          simpa using ⟨hnpk, htyped⟩
  · intro k hk
    simp only [UniversalRecord.fromRecord, akeys, List.mem_map] at hk
    obtain ⟨kw, hkw, hfst⟩ := hk
    have h2 := (List.mem_filter.mp hkw).2
    simp only [decide_eq_true_eq] at h2
    subst hfst
    simpa [UniversalRecord.fromRecord, akeys] using h2
  · intro kv hkv hpk hvar
    exact ⟨List.mem_filter.mpr ⟨hkv, by simpa using hpk⟩,
      List.mem_filter.mpr ⟨hkv, by simpa using hvar⟩⟩

/-- C10 witness: a record with a field that is both primary key and varied
list, at primary-key list `["id", "v"]`. -/
theorem universal_record_split_cover_witness :
    (("v", Value.list true [.num "1", .str "x"]) ∈
      (UniversalRecord.fromRecord
        [("id", .int 1), ("v", .list true [.num "1", .str "x"]),
         ("plain", .str "p")] ["id", "v"]).pk) ∧
    (("v", Value.list true [.num "1", .str "x"]) ∈
      (UniversalRecord.fromRecord
        [("id", .int 1), ("v", .list true [.num "1", .str "x"]),
         ("plain", .str "p")] ["id", "v"]).untyped) ∧
    "plain" ∈ akeys (UniversalRecord.fromRecord
        [("id", .int 1), ("v", .list true [.num "1", .str "x"]),
         ("plain", .str "p")] ["id", "v"]).typed := by
  have h := universal_record_split_cover
    [("id", .int 1), ("v", .list true [.num "1", .str "x"]), ("plain", .str "p")]
    ["id", "v"]
  have hboth := h.2.2 ("v", Value.list true [.num "1", .str "x"])
    (by simp) (by simp) rfl
  have hcover := h.1 ("plain", Value.str "p") (by simp)
  refine ⟨hboth.1, hboth.2, ?_⟩
  rcases hcover with hc | hc | hc
  · exact absurd hc (by simp [UniversalRecord.fromRecord, akeys, Value.isVaried])
  · exact hc
  · exact absurd hc (by simp [UniversalRecord.fromRecord, akeys, Value.isVaried])

/-! ### Primary-key learning lemmas -/

theorem learnPks_fresh (pks : List String) : ∀ cur : List String, pks.Nodup →
    (∀ p ∈ pks, p ∉ cur) → learnPks cur pks = cur ++ pks := by
  induction pks with
  | nil => intro cur _ _; simp [learnPks]
  | cons p rest ih =>
    intro cur hnd hfresh
    have hp : p ∉ cur := hfresh p (List.mem_cons_self p rest)
    have hstep : learnPks cur (p :: rest) = learnPks (cur ++ [p]) rest := by
      simp [learnPks, hp]
    rw [hstep, ih (cur ++ [p]) (List.nodup_cons.mp hnd).2]
    · simp
    · intro q hq
      simp only [List.mem_append, List.mem_singleton, not_or]
      exact ⟨hfresh q (List.mem_cons_of_mem p hq),
        fun he => (List.nodup_cons.mp hnd).1 (he ▸ hq)⟩

theorem learnPks_noop (pks : List String) : ∀ cur : List String,
    (∀ p ∈ pks, p ∈ cur) → learnPks cur pks = cur := by
  induction pks with
  | nil => intro cur _; simp [learnPks]
  | cons p rest ih =>
    intro cur hsub
    have hp : p ∈ cur := hsub p (List.mem_cons_self p rest)
    have hstep : learnPks cur (p :: rest) = learnPks cur rest := by
      simp [learnPks, hp]
    rw [hstep, ih cur (fun q hq => hsub q (List.mem_cons_of_mem p hq))]

/-- The record initialiser's primary-key store, spelled out. -/
theorem dmsRecordInit_pk (st : DMSState) (b : DMSBucket) :
    (dmsRecordInit st b).1.primaryKeys = aset st.primaryKeys b.address
      (if (alookup st.ignoreDdl b.address).getD false then
        (alookup st.primaryKeys b.address).getD []
       else learnPks ((alookup st.primaryKeys b.address).getD [])
         ((b.tableDef.map DMSTableDef.primaryKey).getD [])) := rfl

theorem dmsRecordInit_ig (st : DMSState) (b : DMSBucket) :
    (dmsRecordInit st b).1.ignoreDdl = aset st.ignoreDdl b.address
      ((alookup st.ignoreDdl b.address).getD false) := rfl

/-- For a create-table event, `to_sql` leaves exactly the record
initialiser's state. -/
theorem dms_create_state (st : DMSState) (ev : DMSEvent) (b : DMSBucket)
    (hb : mkDMSBucket ev = .ok b) (hop : b.operation = "create-table") :
    (dmsToSql st ev).state = (dmsRecordInit st b).1 := by
  rcases hsp : dmsRecordInit st b with ⟨st1, ctx⟩
  simp only [dmsToSql, hb, hop, hsp]
  simp

/-- C7: for a valid create-table control event declaring a duplicate-free
primary-key array, processed by a translator whose primary-key store for
the address is empty and whose DDL handling is not ignored, the learned
primary-key list afterwards equals the declared array in order, and
replaying the identical event leaves it unchanged. -/
theorem dms_create_table_learning (st : DMSState) (ev : DMSEvent)
    (b : DMSBucket) (pks : List String)
    (hb : mkDMSBucket ev = .ok b)
    (hop : b.operation = "create-table")
    (hdecl : (b.tableDef.map DMSTableDef.primaryKey).getD [] = pks)
    (hnd : pks.Nodup)
    (hempty : (alookup st.primaryKeys b.address).getD [] = [])
    (hig : (alookup st.ignoreDdl b.address).getD false = false) :
    alookup (dmsToSql st ev).state.primaryKeys b.address = some pks ∧
    alookup (dmsToSql (dmsToSql st ev).state ev).state.primaryKeys b.address
      = some pks := by
  have h1 : (dmsToSql st ev).state = (dmsRecordInit st b).1 :=
    dms_create_state st ev b hb hop
  have hlearn : learnPks ((alookup st.primaryKeys b.address).getD [])
      ((b.tableDef.map DMSTableDef.primaryKey).getD []) = pks := by
    rw [hempty, hdecl, learnPks_fresh pks [] hnd (by intro p _; simp)]
    simp
  have hpk1 : alookup (dmsToSql st ev).state.primaryKeys b.address = some pks := by
    rw [h1, dmsRecordInit_pk, hig, if_neg (by simp), hlearn, alookup_aset_self]
  refine ⟨hpk1, ?_⟩
  have h2 : (dmsToSql (dmsToSql st ev).state ev).state =
      (dmsRecordInit (dmsToSql st ev).state b).1 :=
    dms_create_state _ ev b hb hop
  have hig2 : (alookup (dmsToSql st ev).state.ignoreDdl b.address).getD false
      = false := by
    rw [h1, dmsRecordInit_ig, hig, alookup_aset_self]
    rfl
  have hlearn2 : learnPks
      ((alookup (dmsToSql st ev).state.primaryKeys b.address).getD [])
      ((b.tableDef.map DMSTableDef.primaryKey).getD []) = pks := by
    rw [hpk1, hdecl]
    exact learnPks_noop pks pks (fun p hp => hp)
  rw [h2, dmsRecordInit_pk, hig2, if_neg (by simp), hlearn2, alookup_aset_self]

/-- C7 witness: the create-table message of the test corpus declaring
`["id", "name"]`, against a translator with no keys for `public.foo`. -/
theorem dms_create_table_learning_witness :
    alookup (dmsToSql stUniFoo evCreateFooIdName).state.primaryKeys taFoo
      = some ["id", "name"] ∧
    alookup (dmsToSql (dmsToSql stUniFoo evCreateFooIdName).state
      evCreateFooIdName).state.primaryKeys taFoo = some ["id", "name"] := by
  have h := dms_create_table_learning stUniFoo evCreateFooIdName
    ⟨taFoo, "create-table", evCreateFooIdName.tableDef, []⟩ ["id", "name"]
    (by rfl) rfl (by rfl) (by decide) (by rfl) (by rfl)
  exact h

/-! ### DynamoDB record-splitting lemmas -/

theorem mem_deserializeFields (rec : List (String × AttrValue)) (k : String)
    (v : AttrValue) (h : (k, v) ∈ rec) :
    (k, deserialize v) ∈ deserializeFields rec := by
  induction rec with
  | nil => cases h
  | cons hd tl ih =>
    obtain ⟨k0, v0⟩ := hd
    rcases List.mem_cons.mp h with he | h2
    · obtain ⟨h1, h2⟩ := Prod.mk.injEq .. ▸ he
      subst h1
      subst h2
      exact List.mem_cons_self _ _
    · exact List.mem_cons_of_mem _ (ih h2)

theorem akeys_deserializeFields (rec : List (String × AttrValue)) :
    akeys (deserializeFields rec) = akeys rec := by
  induction rec with
  | nil => rfl
  | cons hd tl ih =>
    obtain ⟨k0, v0⟩ := hd
    simp [deserializeFields, akeys] at ih ⊢
    exact ih

/-- C8: a top-level non-key field holding a wire-format list goes to the
`typed` bucket when every element carries the same wire-level type tag
(vacuously for the empty list), and to the `untyped` bucket when the tags
differ. -/
theorem ddb_list_tag_bucketing (rec : List (String × AttrValue)) (k : String)
    (items : List AttrValue) (keyNames : List String)
    (hmem : (k, AttrValue.L items) ∈ rec)
    (hkey : k ∉ keyNames)
    (hnd : (akeys rec).Nodup) :
    (tagsVaried items = false →
      (k, deserialize (.L items)) ∈ (ddbDecodeRecord keyNames rec).typed ∧
      k ∉ akeys (ddbDecodeRecord keyNames rec).untyped) ∧
    (tagsVaried items = true →
      (k, deserialize (.L items)) ∈ (ddbDecodeRecord keyNames rec).untyped ∧
      k ∉ akeys (ddbDecodeRecord keyNames rec).typed) := by
  have hmem2 : (k, deserialize (.L items)) ∈ deserializeFields rec :=
    mem_deserializeFields rec k _ hmem
  have hnd2 : (akeys (deserializeFields rec)).Nodup := by
    rw [akeys_deserializeFields]; exact hnd
  have hvar : (deserialize (.L items)).isVaried = tagsVaried items := rfl
  constructor
  · intro huni
    have huntyped : k ∉ akeys (ddbDecodeRecord keyNames rec).untyped := by
      intro hin
      simp only [ddbDecodeRecord, UniversalRecord.fromRecord, akeys,
        List.mem_map, List.mem_filter] at hin
      obtain ⟨kw, ⟨hkw, hkvar⟩, hfst⟩ := hin
      have hkpair : (k, kw.2) ∈ deserializeFields rec := by
        rw [← hfst]
        exact hkw
      have heq : kw.2 = deserialize (.L items) :=
        assoc_unique (deserializeFields rec) hnd2 k kw.2
          (deserialize (.L items)) hkpair hmem2
      rw [heq, hvar, huni] at hkvar
      cases hkvar
    refine ⟨?_, huntyped⟩
    refine List.mem_filter.mpr ⟨hmem2, ?_⟩
    have hpk : k ∉ akeys ((deserializeFields rec).filter
        (fun kv => decide (kv.1 ∈ keyNames))) := by
      intro hin
      simp only [akeys, List.mem_map, List.mem_filter,
        decide_eq_true_eq] at hin
      obtain ⟨kw, ⟨_, hkmem⟩, hfst⟩ := hin
      exact hkey (hfst ▸ hkmem)
    rw [decide_eq_true_eq]
    exact ⟨hpk, huntyped⟩
  · intro hvaried
    have huntyped : (k, deserialize (.L items)) ∈
        (ddbDecodeRecord keyNames rec).untyped := by
      refine List.mem_filter.mpr ⟨hmem2, ?_⟩
      simp [hvar, hvaried]
    refine ⟨huntyped, ?_⟩
    intro hin
    simp only [ddbDecodeRecord, UniversalRecord.fromRecord, akeys,
      List.mem_map, List.mem_filter, decide_eq_true_eq] at hin
    obtain ⟨kw, ⟨hkw, hcond⟩, hfst⟩ := hin
    refine hcond.2 ⟨(k, deserialize (.L items)), ⟨hmem2, ?_⟩, hfst.symm⟩
    rw [hvar, hvaried]

/-- C8 witness: a uniform string list stays typed, a mixed list goes
untyped, at the record of the nested-CDC test message. -/
theorem ddb_list_tag_bucketing_witness :
    (("tags", deserialize (.L [.S "foo", .S "bar"])) ∈
      (ddbDecodeRecord ["id"]
        [("id", .S "X"), ("tags", .L [.S "foo", .S "bar"]),
         ("lv", .L [.M [("a", .N "1")], .N "2"])]).typed) ∧
    (("lv", deserialize (.L [.M [("a", .N "1")], .N "2"])) ∈
      (ddbDecodeRecord ["id"]
        [("id", .S "X"), ("tags", .L [.S "foo", .S "bar"]),
         ("lv", .L [.M [("a", .N "1")], .N "2"])]).untyped) := by
  have h1 := ddb_list_tag_bucketing
    [("id", .S "X"), ("tags", .L [.S "foo", .S "bar"]),
     ("lv", .L [.M [("a", .N "1")], .N "2"])]
    "tags" [.S "foo", .S "bar"] ["id"]
    (by simp) (by decide) (by decide)
  have h2 := ddb_list_tag_bucketing
    [("id", .S "X"), ("tags", .L [.S "foo", .S "bar"]),
     ("lv", .L [.M [("a", .N "1")], .N "2"])]
    "lv" [.M [("a", .N "1")], .N "2"] ["id"]
    (by simp) (by decide) (by decide)
  exact ⟨(h1.1 (by decide)).1, (h2.2 (by decide)).1⟩

/-! ### The `ON CONFLICT DO NOTHING` scope (C1) -/

def evDdbInsertFoo : DDBEvent :=
  { eventSource := some "aws:dynamodb", eventName := some "INSERT"
    keys := [("id", .S "5F9E")]
    newImage := [("id", .S "5F9E"), ("humidity", .N "84.84")] }

/-- C1 counterexample: the DynamoDB full-load INSERT statement carries no
`ON CONFLICT DO NOTHING` clause (its tests pin the plain INSERT), so the
claim that every DynamoDB INSERT operation contains the clause fails. -/
theorem ddb_full_load_insert_lacks_conflict_clause :
    (ddbFullLoadToSql "foo" ["id"] [[("id", .S "5F9E")]]).statement
      = "INSERT INTO foo (pk, data, aux) VALUES (:pk, :typed, :untyped);" ∧
    ¬ ∃ pre post, (ddbFullLoadToSql "foo" ["id"] [[("id", .S "5F9E")]]).statement
      = pre ++ "ON CONFLICT DO NOTHING" ++ post := by
  refine ⟨rfl, ?_⟩
  rintro ⟨pre, post, h⟩
  have hinf : "ON CONFLICT DO NOTHING".data <:+:
      (ddbFullLoadToSql "foo" ["id"] [[("id", .S "5F9E")]]).statement.data :=
    ⟨pre.data, post.data, (congrArg String.data h).symm⟩
  exact absurd hinf (by decide)

/-- C1 (amended): every INSERT produced by the DMS UNIVERSAL strategy for
load/insert events and every DynamoDB CDC INSERT contains the clause
`ON CONFLICT DO NOTHING`; the DynamoDB full-load INSERT does not (see the
counterexample). -/
theorem insert_on_conflict_scope :
    (∀ (st : DMSState) (ev : DMSEvent) (b : DMSBucket),
      mkDMSBucket ev = .ok b →
      (alookup st.mappingStrategy b.address).getD .DIRECT = .UNIVERSAL →
      b.operation = "load" ∨ b.operation = "insert" →
      ∀ op : SQLOperation, (dmsToSql st ev).result = .ok op →
      ∃ pre post, op.statement = pre ++ "ON CONFLICT DO NOTHING" ++ post) ∧
    (∀ (tableName : String) (ev : DDBEvent) (op : SQLOperation),
      ev.eventName = some "INSERT" →
      ddbCdcToSql tableName ev = .ok op →
      ∃ pre post, op.statement = pre ++ "ON CONFLICT DO NOTHING" ++ post) := by
  constructor
  · intro st ev b hb hstrat hop op hok
    rcases hsp : dmsRecordInit st b with ⟨st1, ctx⟩
    have hctx : ctx.strategy = .UNIVERSAL := by
      have h0 : (dmsRecordInit st b).2.strategy
          = (alookup st.mappingStrategy b.address).getD .DIRECT := rfl
      rw [hsp] at h0
      exact h0.trans hstrat
    rcases hop with h | h <;>
    · simp [dmsToSql, hb, hsp, h] at hok
      cases hdec : decodeData ctx.columnTypes b.data with
      | error e =>
        rw [hdec] at hok
        simp at hok
      | ok data2 =>
        rw [hdec] at hok
        simp at hok
        rw [← hok]
        simp only [dmsInsertOp, hctx]
        refine ⟨"INSERT INTO " ++ ctx.address.fqnStr
          ++ " (pk, data, aux) VALUES (:pk, :typed, :untyped) ", ";", ?_⟩
        rw [strAppendAssoc, strAppendAssoc, strAppendAssoc, strAppendAssoc]
        rfl
  · intro tableName ev op hname hok
    by_cases hsrc : ev.eventSource = some "aws:dynamodb"
    · simp [ddbCdcToSql, hname, hsrc] at hok
      rw [← hok]
      refine ⟨"INSERT INTO " ++ quoteRelationName tableName
        ++ " (pk, data, aux) VALUES (:pk, :typed, :untyped) ", ";", ?_⟩
      rw [strAppendAssoc, strAppendAssoc, strAppendAssoc, strAppendAssoc]
      rfl
    · have hcond : ev.eventSource ≠ some "aws:dynamodb" := hsrc
      simp [ddbCdcToSql, hcond] at hok

/-- C1 witness: the DMS UNIVERSAL insert event and the DynamoDB CDC INSERT
event of the test corpus. -/
theorem insert_on_conflict_scope_witness :
    (∃ (op : SQLOperation) (pre post : String),
      (dmsToSql stUniFoo evInsertFoo).result = .ok op ∧
      op.statement = pre ++ "ON CONFLICT DO NOTHING" ++ post) ∧
    (∃ (op : SQLOperation) (pre post : String),
      ddbCdcToSql "foo" evDdbInsertFoo = .ok op ∧
      op.statement = pre ++ "ON CONFLICT DO NOTHING" ++ post) := by
  constructor
  · obtain ⟨op, hop⟩ : ∃ op, (dmsToSql stUniFoo evInsertFoo).result = .ok op :=
      ⟨_, rfl⟩
    obtain ⟨pre, post, hs⟩ := insert_on_conflict_scope.1 stUniFoo evInsertFoo
      ⟨taFoo, "insert", none, evInsertFoo.data⟩ rfl rfl (Or.inr rfl) op hop
    exact ⟨op, pre, post, hop, hs⟩
  · obtain ⟨op, hop⟩ : ∃ op, ddbCdcToSql "foo" evDdbInsertFoo = .ok op :=
      ⟨_, rfl⟩
    obtain ⟨pre, post, hs⟩ := insert_on_conflict_scope.2 "foo" evDdbInsertFoo
      op rfl hop
    exact ⟨op, pre, post, hop, hs⟩

/-! ### The primary-key precondition (C4) -/

/-- C4 counterexample: a DMS insert event for a table with no known primary
key returns an SQL operation instead of raising the precondition error
(`test_direct_decode_cdc_insert_without_pk`). -/
theorem dms_insert_without_pk_returns_operation :
    ((dmsToSql stDirFoo evInsertFoo).result.map SQLOperation.statement)
      = .ok ("INSERT INTO public.foo (\"age\", \"attributes\", \"id\", \"name\")"
        ++ " VALUES (:age, :attributes, :id, :name) ON CONFLICT DO NOTHING;") ∧
    alookup stDirFoo.primaryKeys taFoo = none := by
  exact ⟨by rfl, rfl⟩

/-- C4 (amended): when no primary key is known for the addressed table
(none seeded, none learned, none declared by the event), `update` and
`delete` events raise the precondition error "Unable to invoke DML
operation without primary key information" (for `update`, provided the
column-type decoding of the data succeeds), while `load`/`insert` events
do not require primary keys and return an INSERT operation. -/
theorem dml_primary_key_precondition (st : DMSState) (ev : DMSEvent)
    (b : DMSBucket)
    (hb : mkDMSBucket ev = .ok b)
    (hpk : (dmsRecordInit st b).2.primaryKeys = []) :
    (b.operation = "delete" →
      (dmsToSql st ev).result = .error (.noPrimaryKey
        "Unable to invoke DML operation without primary key information")) ∧
    (b.operation = "update" →
      ∀ data2, decodeData (dmsRecordInit st b).2.columnTypes b.data = .ok data2 →
      (dmsToSql st ev).result = .error (.noPrimaryKey
        "Unable to invoke DML operation without primary key information")) ∧
    ((b.operation = "load" ∨ b.operation = "insert") →
      ∀ data2, decodeData (dmsRecordInit st b).2.columnTypes b.data = .ok data2 →
      (dmsToSql st ev).result = .ok (dmsInsertOp (dmsRecordInit st b).2 data2)) := by
  rcases hsp : dmsRecordInit st b with ⟨st1, ctx⟩
  rw [hsp] at hpk
  have hpk2 : ctx.primaryKeys = [] := hpk
  simp only [hsp]
  refine ⟨?_, ?_, ?_⟩
  · intro hop
    simp [dmsToSql, hb, hsp, hop, dmsKeysToWhere, hpk2]
  · intro hop data2 hdec
    simp [dmsToSql, hb, hsp, hop, hdec, dmsKeysToWhere, hpk2]
  · intro hop data2 hdec
    rcases hop with h | h <;>
      simp [dmsToSql, hb, hsp, h, hdec]

/-- C4 witness: an update event against an unseeded translator raises, an
insert event returns an operation. -/
theorem dml_primary_key_precondition_witness :
    ((dmsToSql stUniFoo evUpdateFoo).result = .error (.noPrimaryKey
      "Unable to invoke DML operation without primary key information")) ∧
    (∃ data2, (dmsToSql stUniFoo evInsertFoo).result
      = .ok (dmsInsertOp (dmsRecordInit stUniFoo
          ⟨taFoo, "insert", none, evInsertFoo.data⟩).2 data2)) := by
  constructor
  · obtain ⟨data2, hdec⟩ : ∃ d, decodeData
        (dmsRecordInit stUniFoo ⟨taFoo, "update", none, evUpdateFoo.data⟩).2.columnTypes
        (⟨taFoo, "update", none, evUpdateFoo.data⟩ : DMSBucket).data = .ok d :=
      ⟨_, rfl⟩
    exact (dml_primary_key_precondition stUniFoo evUpdateFoo
      ⟨taFoo, "update", none, evUpdateFoo.data⟩ rfl rfl).2.1 rfl data2 hdec
  · obtain ⟨data2, hdec⟩ : ∃ d, decodeData
        (dmsRecordInit stUniFoo ⟨taFoo, "insert", none, evInsertFoo.data⟩).2.columnTypes
        (⟨taFoo, "insert", none, evInsertFoo.data⟩ : DMSBucket).data = .ok d :=
      ⟨_, rfl⟩
    exact ⟨data2, (dml_primary_key_precondition stUniFoo evInsertFoo
      ⟨taFoo, "insert", none, evInsertFoo.data⟩ rfl rfl).2.2 (Or.inr rfl) data2 hdec⟩

/-! ### Event mutation (C5) -/

theorem dmsDropOp_eventData (st : DMSState) (ctx : DMSRecordCtx)
    (d : List (String × Value)) (m : Option DMSMetadata) :
    (dmsDropOp st ctx d m).eventData = d := by
  unfold dmsDropOp
  by_cases h : ctx.ignoreDdl = true
  · rw [if_pos h]
  · rw [if_neg h]

theorem dmsDropOp_eventMd (st : DMSState) (ctx : DMSRecordCtx)
    (d : List (String × Value)) (m : Option DMSMetadata) :
    (dmsDropOp st ctx d m).eventMetadata = m := by
  unfold dmsDropOp
  by_cases h : ctx.ignoreDdl = true
  · rw [if_pos h]
  · rw [if_neg h]

theorem mkDMSBucket_data (ev : DMSEvent) (b : DMSBucket)
    (hb : mkDMSBucket ev = .ok b) : b.data = ev.data := by
  unfold mkDMSBucket at hb
  by_cases hc1 : (ev.metadata.isNone
      || optFalsy (dmsEffectiveMd ev).operation) = true
  · rw [if_pos hc1] at hb
    cases hb
  · rw [if_neg hc1] at hb
    by_cases hc2 : (optFalsy (dmsEffectiveMd ev).schemaName
        || optFalsy (dmsEffectiveMd ev).tableName) = true
    · rw [if_pos hc2] at hb
      cases hb
    · rw [if_neg hc2] at hb
      cases hb
      rfl

/-- Every branch of `to_sql` hands the caller's metadata dict back in the
state the `DMSBucket` construction left it: tweaked by the `awsdms_`
diversion and otherwise untouched. -/
theorem dmsToSql_eventMd (st : DMSState) (ev : DMSEvent) :
    (dmsToSql st ev).eventMetadata = dmsCallerMd ev := by
  cases hb : mkDMSBucket ev with
  | error e => simp [dmsToSql, hb]
  | ok b =>
    rcases hsp : dmsRecordInit st b with ⟨st1, ctx⟩
    by_cases h1 : b.operation = "create-table"
    · simp [dmsToSql, hb, hsp, h1]
    by_cases h2 : b.operation = "drop-table"
    · have hev : (dmsToSql st ev).eventMetadata
          = (dmsDropOp st1 ctx ev.data (dmsCallerMd ev)).eventMetadata := by
        simp only [dmsToSql, hb, hsp, h2]
        rw [if_neg (by decide : ¬ ("drop-table" = "create-table")),
          if_pos trivial]
      rw [hev, dmsDropOp_eventMd]
    by_cases h3 : b.operation = "load"
    · cases hdec : decodeData ctx.columnTypes b.data with
      | error e => simp [dmsToSql, hb, hsp, h1, h2, h3, hdec]
      | ok data2 => simp [dmsToSql, hb, hsp, h1, h2, h3, hdec]
    by_cases h4 : b.operation = "insert"
    · cases hdec : decodeData ctx.columnTypes b.data with
      | error e => simp [dmsToSql, hb, hsp, h1, h2, h4, hdec]
      | ok data2 => simp [dmsToSql, hb, hsp, h1, h2, h4, hdec]
    by_cases h5 : b.operation = "update"
    · cases hdec : decodeData ctx.columnTypes b.data with
      | error e => simp [dmsToSql, hb, hsp, h1, h2, h3, h4, h5, hdec]
      | ok data2 =>
        cases hw : dmsKeysToWhere ctx data2 with
        | error e => simp [dmsToSql, hb, hsp, h1, h2, h3, h4, h5, hdec, hw]
        | ok wc => simp [dmsToSql, hb, hsp, h1, h2, h3, h4, h5, hdec, hw]
    by_cases h6 : b.operation = "delete"
    · cases hw : dmsKeysToWhere ctx ev.data with
      | error e => simp [dmsToSql, hb, hsp, h1, h2, h3, h4, h5, h6, hw]
      | ok wc => simp [dmsToSql, hb, hsp, h1, h2, h3, h4, h5, h6, hw]
    · simp [dmsToSql, hb, hsp, h1, h2, h3, h4, h5, h6]

/-- `decode_data` only rewrites values of declared columns: keys are
preserved, and every column outside the declared set keeps its value. -/
theorem decodeData_frame (ct : List (String × ColumnType)) :
    ∀ data data' : List (String × Value), decodeData ct data = .ok data' →
    akeys data' = akeys data ∧
    ∀ k, k ∉ akeys ct → alookup data' k = alookup data k := by
  induction ct with
  | nil =>
    intro data data' h
    simp only [decodeData] at h
    cases h
    exact ⟨rfl, fun _ _ => rfl⟩
  | cons hd tl ih =>
    intro data data' h
    obtain ⟨col, ty⟩ := hd
    simp only [decodeData] at h
    cases hl : alookup data col with
    | none =>
      simp only [hl] at h
      obtain ⟨h1, h2⟩ := ih data data' h
      refine ⟨h1, fun k hk => h2 k ?_⟩
      simp only [akeys, List.map_cons, List.mem_cons, not_or] at hk
      simpa [akeys] using hk.2
    | some v =>
      simp only [hl] at h
      have step : ∀ X : Value, decodeData tl (aset data col X) = Except.ok data' →
          akeys data' = akeys data ∧
          ∀ k, k ∉ akeys ((col, ty) :: tl) → alookup data' k = alookup data k := by
        intro X hX
        obtain ⟨h1, h2⟩ := ih (aset data col X) data' hX
        refine ⟨h1.trans (akeys_aset_of_mem data col v X hl), ?_⟩
        intro k hk
        simp only [akeys, List.map_cons, List.mem_cons, not_or] at hk
        have hkc : ¬ col = k := fun he => hk.1 he.symm
        rw [h2 k (by simpa [akeys] using hk.2),
          alookup_aset_ne data col k X (fun he => hkc he.symm)]
      split at h
      · cases v with
        | str s =>
          cases hj : jsonLoadsFlatValue s with
          | ok v2 =>
            simp only [hj] at h
            exact step v2 h
          | error e =>
            simp only [hj] at h
            simp at h
        | null => exact step _ h
        | bool b => exact step _ h
        | int n => exact step _ h
        | num s => exact step _ h
        | bin s => exact step _ h
        | list va it => exact step _ h
        | obj fs => exact step _ h
      · exact step _ h

/-- C5 counterexample: the caller's event dictionary is changed when
`to_sql` returns, in two ways.  The DMS insert event of the test corpus
has its `attributes` value rewritten in place from a JSON string to a
nested object, and the `awsdms_apply_exceptions` control event of the test
corpus has its metadata `schema-name` rewritten in place from `""` to
`"dms"` by `DMSBucket.__attrs_post_init__`. -/
theorem dms_to_sql_mutates_event :
    (((dmsToSql stUniFoo evInsertFoo).eventData = evInsertFoo.data) → False) ∧
    alookup evInsertFoo.data "attributes"
      = some (.str "\x7b\"baz\": \"qux\"\x7d") ∧
    (alookup (dmsToSql stUniFoo evInsertFoo).eventData "attributes").map
      Value.isStr = some false ∧
    evControlAwsdms.metadata
      = some ⟨some "create-table", some "", some "awsdms_apply_exceptions"⟩ ∧
    (dmsToSql stUniFoo evControlAwsdms).eventMetadata
      = some ⟨some "create-table", some "dms",
          some "awsdms_apply_exceptions"⟩ ∧
    (((dmsToSql stUniFoo evControlAwsdms).eventMetadata
      = evControlAwsdms.metadata) → False) := by
  refine ⟨?_, rfl, by rfl, rfl, by rfl, ?_⟩
  · intro h
    have h2 := congrArg (fun d => (alookup d "attributes").map Value.isStr) h
    exact absurd h2 (by decide)
  · intro h
    exact absurd h (by decide)

/-- C5 (amended): the mutation `to_sql` performs on the caller's event is
confined to two in-place rewrites.  First, the values of `data` columns
declared MAP/OBJECT in the translator's column-type store: `decode_data`
preserves the key set and every undeclared column's value, and at the
`to_sql` boundary every undeclared column of the event's data dict reads
back unchanged.  Second, the metadata `schema-name`, which
`DMSBucket.__attrs_post_init__` sets to `dms` in the caller's dict exactly
when the metadata's table name is non-empty and starts with `awsdms_`; the
metadata of every other event, and an absent metadata dict, read back
unchanged. -/
theorem dms_event_mutation_confined :
    (∀ (ct : List (String × ColumnType)) (data data' : List (String × Value)),
      decodeData ct data = .ok data' →
      akeys data' = akeys data ∧
      ∀ k, k ∉ akeys ct → alookup data' k = alookup data k) ∧
    (∀ (st : DMSState) (ev : DMSEvent) (b : DMSBucket),
      mkDMSBucket ev = .ok b →
      ∀ k, k ∉ akeys ((alookup st.columnTypes b.address).getD []) →
      alookup (dmsToSql st ev).eventData k = alookup ev.data k) ∧
    (∀ (st : DMSState) (ev : DMSEvent) (md0 : DMSMetadata),
      ev.metadata = some md0 →
      ((md0.tableName.getD "" ≠ "" &&
          strStarts (md0.tableName.getD "") "awsdms_") = true →
        (dmsToSql st ev).eventMetadata
          = some { md0 with schemaName := some "dms" }) ∧
      ((md0.tableName.getD "" ≠ "" &&
          strStarts (md0.tableName.getD "") "awsdms_") = false →
        (dmsToSql st ev).eventMetadata = some md0)) ∧
    (∀ (st : DMSState) (ev : DMSEvent),
      ev.metadata = none → (dmsToSql st ev).eventMetadata = none) := by
  refine ⟨fun ct data data' h => decodeData_frame ct data data' h, ?_, ?_, ?_⟩
  rotate_left
  · intro st ev md0 hmd
    constructor
    · intro hcond
      rw [dmsToSql_eventMd]
      unfold dmsCallerMd dmsEffectiveMd
      rw [hmd]
      simp only [Option.map_some', Option.getD_some]
      rw [if_pos hcond]
    · intro hcond
      rw [dmsToSql_eventMd]
      unfold dmsCallerMd dmsEffectiveMd
      rw [hmd]
      simp only [Option.map_some', Option.getD_some]
      rw [if_neg (by intro h; rw [hcond] at h; exact absurd h (by decide))]
  · intro st ev hmd
    rw [dmsToSql_eventMd]
    unfold dmsCallerMd
    rw [hmd]
    rfl
  intro st ev b hb k hk
  rcases hsp : dmsRecordInit st b with ⟨st1, ctx⟩
  have hct : ctx.columnTypes = (alookup st.columnTypes b.address).getD [] := by
    have h0 : (dmsRecordInit st b).2.columnTypes
        = (alookup st.columnTypes b.address).getD [] := rfl
    rw [hsp] at h0
    exact h0
  have hkc : k ∉ akeys ctx.columnTypes := by rw [hct]; exact hk
  have hbd : b.data = ev.data := mkDMSBucket_data ev b hb
  by_cases h1 : b.operation = "create-table"
  · simp [dmsToSql, hb, hsp, h1]
  by_cases h2 : b.operation = "drop-table"
  · have hev : (dmsToSql st ev).eventData = ev.data := by
      simp only [dmsToSql, hb, hsp, h2]
      rw [if_neg (by decide : ¬ ("drop-table" = "create-table")),
        if_pos trivial, dmsDropOp_eventData]
    rw [hev]
  by_cases h3 : b.operation = "load"
  · cases hdec : decodeData ctx.columnTypes b.data with
    | error e => simp [dmsToSql, hb, hsp, h1, h2, h3, hdec]
    | ok data2 =>
      simp [dmsToSql, hb, hsp, h1, h2, h3, hdec]
      rw [← hbd]
      exact (decodeData_frame ctx.columnTypes b.data data2 hdec).2 k hkc
  by_cases h4 : b.operation = "insert"
  · cases hdec : decodeData ctx.columnTypes b.data with
    | error e => simp [dmsToSql, hb, hsp, h1, h2, h4, hdec]
    | ok data2 =>
      simp [dmsToSql, hb, hsp, h1, h2, h4, hdec]
      rw [← hbd]
      exact (decodeData_frame ctx.columnTypes b.data data2 hdec).2 k hkc
  by_cases h5 : b.operation = "update"
  · cases hdec : decodeData ctx.columnTypes b.data with
    | error e => simp [dmsToSql, hb, hsp, h1, h2, h3, h4, h5, hdec]
    | ok data2 =>
      have hframe := (decodeData_frame ctx.columnTypes b.data data2 hdec).2 k hkc
      cases hw : dmsKeysToWhere ctx data2 with
      | error e =>
        simp [dmsToSql, hb, hsp, h1, h2, h3, h4, h5, hdec, hw]
        rw [← hbd]
        exact hframe
      | ok wc =>
        simp [dmsToSql, hb, hsp, h1, h2, h3, h4, h5, hdec, hw]
        rw [← hbd]
        exact hframe
  by_cases h6 : b.operation = "delete"
  · cases hw : dmsKeysToWhere ctx ev.data with
    | error e => simp [dmsToSql, hb, hsp, h1, h2, h3, h4, h5, h6, hw]
    | ok wc => simp [dmsToSql, hb, hsp, h1, h2, h3, h4, h5, h6, hw]
  · simp [dmsToSql, hb, hsp, h1, h2, h3, h4, h5, h6]

/-- C5 witness: at the test corpus's column-type store and insert data,
decoding preserves the keys and the undeclared columns, at the `to_sql`
boundary the `name` column reads back unchanged, the `awsdms` control
event's metadata reads back with schema `dms`, and the plain insert
event's metadata reads back unchanged. -/
theorem dms_event_mutation_confined_witness :
    (∃ data2, decodeData [("attributes", ColumnType.OBJECT)] evInsertFoo.data
        = .ok data2 ∧ akeys data2 = akeys evInsertFoo.data ∧
        alookup data2 "name" = alookup evInsertFoo.data "name") ∧
    alookup (dmsToSql stUniFoo evInsertFoo).eventData "name"
      = alookup evInsertFoo.data "name" ∧
    (dmsToSql stUniFoo evControlAwsdms).eventMetadata
      = some ⟨some "create-table", some "dms",
          some "awsdms_apply_exceptions"⟩ ∧
    (dmsToSql stUniFoo evInsertFoo).eventMetadata = evInsertFoo.metadata := by
  refine ⟨?_, ?_, ?_, ?_⟩
  · obtain ⟨data2, hdec⟩ : ∃ d, decodeData [("attributes", ColumnType.OBJECT)]
        evInsertFoo.data = .ok d := ⟨_, rfl⟩
    obtain ⟨h1, h2⟩ := dms_event_mutation_confined.1
      [("attributes", ColumnType.OBJECT)] evInsertFoo.data data2 hdec
    exact ⟨data2, hdec, h1, h2 "name" (by decide)⟩
  · exact dms_event_mutation_confined.2.1 stUniFoo evInsertFoo
      ⟨taFoo, "insert", none, evInsertFoo.data⟩ rfl "name" (by decide)
  · exact (dms_event_mutation_confined.2.2.1 stUniFoo evControlAwsdms
      ⟨some "create-table", some "", some "awsdms_apply_exceptions"⟩
      rfl).1 (by decide)
  · exact (dms_event_mutation_confined.2.2.1 stUniFoo evInsertFoo
      ⟨some "insert", some "public", some "foo"⟩ rfl).2 (by decide)

/-! ### Identifier quoting (C3) -/

theorem splitFirst_append (sep : Char) (xs : List Char) :
    ∀ ys, sep ∉ xs → splitFirst sep (xs ++ sep :: ys) = some (xs, ys) := by
  induction xs with
  | nil => intro ys _; simp [splitFirst]
  | cons c rest ih =>
    intro ys h
    have hc : ¬ c = sep := fun he => h (by simp [he])
    simp [splitFirst, hc, ih ys (fun hm => h (List.mem_cons_of_mem c hm))]

/-- C3 counterexample: the DROP DDL statement produced for `public.foo`
contains no double-quote character at all, so the table-name components are
not wrapped in double quotes. -/
theorem dms_statement_unquoted_identifiers :
    ((dmsToSql stUniFoo evDropFoo).result.map SQLOperation.statement)
      = .ok "DROP TABLE IF EXISTS public.foo;" ∧
    ('"' ∈ "DROP TABLE IF EXISTS public.foo;".data → False) := by
  exact ⟨by rfl, by decide⟩

/-- C3 (amended): identifier components of table names are quoted
conditionally, not always: `fqn` renders each dot-free component through
`quoteIdent`, which wraps a component in double quotes exactly when it is
empty, a reserved word, not all plain lowercase characters, or begins with
a digit, and leaves it bare otherwise (so `public.foo` stays unquoted while
`select.from` becomes `"select"."from"`). -/
theorem identifier_quoting_policy (ta : TableAddress)
    (hs : ta.schema ≠ "")
    (hdot1 : '.' ∉ ta.schema.data) (hdot2 : '.' ∉ ta.table.data)
    (hq1 : strStarts (ta.schema ++ "." ++ ta.table) "\"" = false)
    (hq2 : strEnds (ta.schema ++ "." ++ ta.table) "\"" = false) :
    ta.fqn = .ok (quoteIdent ta.schema ++ "." ++ quoteIdent ta.table) ∧
    (∀ comp : String, needsQuoting comp = true →
      quoteIdent comp = "\"" ++ comp ++ "\"") ∧
    (∀ comp : String, needsQuoting comp = false → quoteIdent comp = comp) := by
  refine ⟨?_, ?_, ?_⟩
  · have hdata : (ta.schema ++ "." ++ ta.table).data
        = ta.schema.data ++ '.' :: ta.table.data := by
      show (ta.schema.data ++ ".".data) ++ ta.table.data
        = ta.schema.data ++ '.' :: ta.table.data
      simp
    unfold TableAddress.fqn
    rw [if_neg hs]
    unfold TableAddress.fqnStr quoteRelationName
    rw [hq1, hq2]
    simp only [Bool.or_self]
    rw [if_neg (by simp)]
    rw [hdata, splitFirst_append '.' ta.schema.data ta.table.data hdot1]
  · intro comp h
    unfold quoteIdent
    rw [if_pos h]
  · intro comp h
    unfold quoteIdent
    rw [h]
    simp

/-- C3 witness: the reserved-word address `select.from` is quoted in both
components, and the policy facts hold at the concrete components. -/
theorem identifier_quoting_policy_witness :
    (TableAddress.mk "select" "from").fqn
      = .ok (quoteIdent "select" ++ "." ++ quoteIdent "from") ∧
    quoteIdent "select" = "\"" ++ "select" ++ "\"" ∧
    quoteIdent "public" = "public" := by
  have h := identifier_quoting_policy ⟨"select", "from"⟩
    (by decide) (by decide) (by decide) (by decide) (by decide)
  exact ⟨h.1, h.2.1 "select" (by decide), h.2.2 "public" (by decide)⟩

/-! ### Round-trip machinery for the column-type store (C6) -/

theorem alookup_none_iff {κ α : Type} [DecidableEq κ] (l : List (κ × α))
    (k : κ) : alookup l k = none ↔ k ∉ akeys l := by
  induction l with
  | nil => simp [alookup, akeys]
  | cons hd tl ih =>
    obtain ⟨k0, v0⟩ := hd
    by_cases h : k0 = k
    · subst h
      simp [alookup, akeys]
    · have hne : ¬ k = k0 := fun he => h he.symm
      simp [alookup, akeys, h, hne, ih]

theorem aset_fresh {κ α : Type} [DecidableEq κ] (l : List (κ × α))
    (k : κ) (v : α) (h : k ∉ akeys l) : aset l k v = l ++ [(k, v)] := by
  induction l with
  | nil => simp [aset]
  | cons hd tl ih =>
    obtain ⟨k0, v0⟩ := hd
    simp only [akeys, List.map_cons, List.mem_cons, not_or] at h
    have hne : ¬ k0 = k := fun he => h.1 he.symm
    have htl : k ∉ akeys tl := by simpa [akeys] using h.2
    simp [aset, hne, ih htl]

theorem alookup_append_left {κ α : Type} [DecidableEq κ]
    (l1 l2 : List (κ × α)) (k : κ) (h : k ∉ akeys l1) :
    alookup (l1 ++ l2) k = alookup l2 k := by
  induction l1 with
  | nil => rfl
  | cons hd tl ih =>
    obtain ⟨k0, v0⟩ := hd
    simp only [akeys, List.map_cons, List.mem_cons, not_or] at h
    have hne : ¬ k0 = k := fun he => h.1 he.symm
    have htl : k ∉ akeys tl := by simpa [akeys] using h.2
    simp [alookup, hne, ih htl]

theorem aset_append_last {κ α : Type} [DecidableEq κ]
    (l : List (κ × α)) (k : κ) (x y : α) (h : k ∉ akeys l) :
    aset (l ++ [(k, x)]) k y = l ++ [(k, y)] := by
  induction l with
  | nil => simp [aset]
  | cons hd tl ih =>
    obtain ⟨k0, v0⟩ := hd
    simp only [akeys, List.map_cons, List.mem_cons, not_or] at h
    have hne : ¬ k0 = k := fun he => h.1 he.symm
    have htl : k ∉ akeys tl := by simpa [akeys] using h.2
    simp [aset, hne, ih htl]

theorem strAppend_cancel_left (a b c : String) (h : a ++ b = a ++ c) :
    b = c := by
  cases a with
  | mk la =>
    cases b with
    | mk lb =>
      cases c with
      | mk lc =>
        have h2 : la ++ lb = la ++ lc := congrArg String.data h
        exact congrArg String.mk (List.append_cancel_left h2)

theorem splitAllAux_append (sep : Char) (xs : List Char) :
    ∀ (l acc : List Char), sep ∉ xs →
    splitAllAux sep (xs ++ l) acc = splitAllAux sep l (xs.reverse ++ acc) := by
  induction xs with
  | nil => intro l acc _; rfl
  | cons c rest ih =>
    intro l acc h
    have hc : ¬ c = sep := fun he => h (by simp [he])
    simp only [List.cons_append, splitAllAux, if_neg hc]
    calc splitAllAux sep (rest ++ l) (c :: acc)
        = splitAllAux sep l (rest.reverse ++ (c :: acc)) :=
          ih l (c :: acc) (fun hm => h (List.mem_cons_of_mem c hm))
      _ = splitAllAux sep l ((c :: rest).reverse ++ acc) := by
          rw [List.reverse_cons, List.append_assoc]
          rfl

theorem splitAll_three (s t c : List Char)
    (hs : ':' ∉ s) (ht : ':' ∉ t) (hc : ':' ∉ c) :
    splitAll ':' (s ++ ':' :: (t ++ ':' :: c)) = [s, t, c] := by
  have hc2 : splitAllAux ':' c [] = [c] := by
    have h0 := splitAllAux_append ':' c [] [] hc
    simpa [splitAllAux] using h0
  unfold splitAll
  rw [splitAllAux_append ':' s _ [] hs]
  simp [splitAllAux]
  rw [splitAllAux_append ':' t _ [] ht]
  simp [splitAllAux, hc2]

/-- The flat serialized key of one column, exactly as `to_dict` builds
it. -/
def flatKey (ta : TableAddress) (col : String) : String :=
  ta.schema ++ ":" ++ ta.table ++ ":" ++ col

theorem flatKey_data (ta : TableAddress) (col : String) :
    (flatKey ta col).data
      = ta.schema.data ++ ':' :: (ta.table.data ++ ':' :: col.data) := by
  show (((ta.schema.data ++ ":".data) ++ ta.table.data) ++ ":".data) ++ col.data
    = ta.schema.data ++ ':' :: (ta.table.data ++ ':' :: col.data)
  simp

theorem flatKey_inj (ta1 ta2 : TableAddress) (c1 c2 : String)
    (h1s : ':' ∉ ta1.schema.data) (h1t : ':' ∉ ta1.table.data)
    (h1c : ':' ∉ c1.data)
    (h2s : ':' ∉ ta2.schema.data) (h2t : ':' ∉ ta2.table.data)
    (h2c : ':' ∉ c2.data)
    (he : flatKey ta1 c1 = flatKey ta2 c2) : ta1 = ta2 ∧ c1 = c2 := by
  have hd : (flatKey ta1 c1).data = (flatKey ta2 c2).data :=
    congrArg String.data he
  rw [flatKey_data, flatKey_data] at hd
  have hsplit : splitAll ':' (ta1.schema.data ++ ':' ::
      (ta1.table.data ++ ':' :: c1.data))
      = splitAll ':' (ta2.schema.data ++ ':' :: (ta2.table.data ++ ':' :: c2.data)) :=
    congrArg (splitAll ':') hd
  rw [splitAll_three _ _ _ h1s h1t h1c, splitAll_three _ _ _ h2s h2t h2c] at hsplit
  obtain ⟨e1, e2, e3⟩ : ta1.schema.data = ta2.schema.data ∧
      ta1.table.data = ta2.table.data ∧ c1.data = c2.data := by
    simpa using hsplit
  obtain ⟨s1, t1⟩ := ta1
  obtain ⟨s2, t2⟩ := ta2
  simp only [TableAddress.mk.injEq]
  exact ⟨⟨congrArg String.mk e1, congrArg String.mk e2⟩, congrArg String.mk e3⟩

theorem columnType_ofValue_value (ty : ColumnType) :
    ColumnType.ofValue ty.value = .ok ty := by
  cases ty <;> rfl

theorem parseStrBody_escape (s : List Char) :
    ∀ rest, parseStrBody (escapeChars s ++ '"' :: rest) = some (s, rest) := by
  induction s with
  | nil =>
    intro rest
    rw [escapeChars, List.nil_append, parseStrBody.eq_def]
    rfl
  | cons c cs ih =>
    intro rest
    by_cases h : c = '"' ∨ c = '\\'
    · have he : escapeChars (c :: cs) = '\\' :: c :: escapeChars cs := by
        rcases h with h | h <;> simp [escapeChars, h]
      rw [he]
      have hstep : parseStrBody ('\\' :: c :: (escapeChars cs ++ '"' :: rest))
          = (parseStrBody (escapeChars cs ++ '"' :: rest)).map
            (fun p => (c :: p.1, p.2)) := rfl
      rw [List.cons_append, List.cons_append, hstep, ih rest]
      rfl
    · have h1 : ¬ (c = '"') := fun he => h (Or.inl he)
      have h2 : ¬ (c = '\\') := fun he => h (Or.inr he)
      have he : escapeChars (c :: cs) = c :: escapeChars cs := by
        simp [escapeChars, h1, h2]
      rw [he]
      have hstep : parseStrBody (c :: (escapeChars cs ++ '"' :: rest))
          = (parseStrBody (escapeChars cs ++ '"' :: rest)).map
            (fun p => (c :: p.1, p.2)) := by
        rw [parseStrBody.eq_def]
        simp only [if_neg h2, if_neg h1]
      rw [List.cons_append, hstep, ih rest]
      rfl

theorem parseEntry_rEntry (kv : String × String) (rest : List Char) :
    parseEntry (rEntry kv ++ rest) = some (kv, rest) := by
  obtain ⟨k, v⟩ := kv
  have h1 : rEntry (k, v) ++ rest
      = '"' :: (escapeChars k.data ++ '"' ::
        (':' :: ' ' :: ('"' :: (escapeChars v.data ++ '"' :: rest)))) := by
    simp [rEntry, rStrLit]
  rw [h1]
  simp [parseEntry, parseStrBody_escape]

theorem rEntries_pos (kv : String × String) (rest : List (String × String)) :
    0 < (rEntries (kv :: rest)).length := by
  cases rest <;> simp [rEntries, rEntry, rStrLit]

theorem parseEntriesLoop_rEntries (d : List (String × String)) :
    ∀ fuel, d ≠ [] → (rEntries d).length ≤ fuel →
    parseEntriesLoop fuel (rEntries d ++ ['\x7d']) = some (d, []) := by
  induction d with
  | nil => intro fuel h _; cases h rfl
  | cons kv rest ih =>
    intro fuel _ hlen
    cases rest with
    | nil =>
      cases fuel with
      | zero =>
        exfalso
        have hpos := rEntries_pos kv []
        omega
      | succ f =>
        simp only [parseEntriesLoop, rEntries]
        rw [parseEntry_rEntry kv ['\x7d']]
        rfl
    | cons kv2 rest2 =>
      cases fuel with
      | zero =>
        exfalso
        have hpos := rEntries_pos kv (kv2 :: rest2)
        omega
      | succ f =>
        have hr : rEntries (kv :: kv2 :: rest2) ++ ['\x7d']
            = rEntry kv ++ (',' :: ' ' :: (rEntries (kv2 :: rest2) ++ ['\x7d'])) := by
          simp [rEntries]
        have hlen2 : (rEntries (kv2 :: rest2)).length ≤ f := by
          have hsum : (rEntries (kv :: kv2 :: rest2)).length
              = (rEntry kv).length + 2 + (rEntries (kv2 :: rest2)).length := by
            simp [rEntries]
            omega
          have hpos : 0 < (rEntry kv).length := by simp [rEntry, rStrLit]
          omega
        have hih := ih f (by simp) hlen2
        simp only [parseEntriesLoop]
        rw [hr, parseEntry_rEntry kv]
        simp [hih]

theorem flatKey_inj_col (ta : TableAddress) (c1 c2 : String)
    (h : flatKey ta c1 = flatKey ta c2) : c1 = c2 :=
  strAppend_cancel_left _ _ _ h

/-- The flat rendering of one table's column dict, in order. -/
def flatCols (ta : TableAddress) (cols : List (String × ColumnType)) :
    List (String × String) :=
  cols.map (fun col => (flatKey ta col.1, col.2.value))

/-- The flat rendering of a whole store: one block per table, in order. -/
def flatStore : List (TableAddress × List (String × ColumnType)) →
    List (String × String)
  | [] => []
  | e :: rest => flatCols e.1 e.2 ++ flatStore rest

theorem akeys_append {κ α : Type} (l1 l2 : List (κ × α)) :
    akeys (l1 ++ l2) = akeys l1 ++ akeys l2 := by
  simp [akeys]

theorem akeys_flatCols (ta : TableAddress)
    (cols : List (String × ColumnType)) :
    akeys (flatCols ta cols) = (akeys cols).map (flatKey ta) := by
  simp [akeys, flatCols, List.map_map]

theorem mem_flatStore_keys :
    ∀ (st : List (TableAddress × List (String × ColumnType))) (k : String),
    k ∈ akeys (flatStore st) →
    ∃ e ∈ st, ∃ c ∈ e.2, k = flatKey e.1 c.1 := by
  intro st
  induction st with
  | nil => intro k hk; simp [flatStore, akeys] at hk
  | cons e st ih =>
    intro k hk
    rw [flatStore, akeys_append, List.mem_append] at hk
    rcases hk with hk | hk
    · rw [akeys_flatCols, List.mem_map] at hk
      obtain ⟨kc, hkc, hke⟩ := hk
      rw [akeys, List.mem_map] at hkc
      obtain ⟨c, hc, hcfst⟩ := hkc
      exact ⟨e, List.mem_cons_self e st, c, hc, by rw [← hke, ← hcfst]⟩
    · obtain ⟨e2, he2, c, hc, hke⟩ := ih k hk
      exact ⟨e2, List.mem_cons_of_mem e he2, c, hc, hke⟩

theorem flatStore_keys_nodup :
    ∀ st : List (TableAddress × List (String × ColumnType)),
    (akeys st).Nodup →
    (∀ e ∈ st, (akeys e.2).Nodup ∧ ':' ∉ e.1.schema.data ∧
      ':' ∉ e.1.table.data ∧ ∀ c ∈ e.2, ':' ∉ c.1.data) →
    (akeys (flatStore st)).Nodup := by
  intro st
  induction st with
  | nil => intro _ _; simp [flatStore, akeys]
  | cons e st ih =>
    intro hnd hwf
    rw [akeys, List.map_cons, List.nodup_cons] at hnd
    rw [flatStore, akeys_append, List.nodup_append]
    refine ⟨?_, ?_, ?_⟩
    · rw [akeys_flatCols]
      exact ((hwf e (List.mem_cons_self e st)).1).map
        (fun a b => flatKey_inj_col e.1 a b)
    · exact ih hnd.2 (fun e2 he2 => hwf e2 (List.mem_cons_of_mem e he2))
    · intro k hk1 hk2
      rw [akeys_flatCols, List.mem_map] at hk1
      obtain ⟨kc, hkc, hke1⟩ := hk1
      obtain ⟨e2, he2, c2, hc2, hke2⟩ := mem_flatStore_keys st k hk2
      have hw1 := hwf e (List.mem_cons_self e st)
      have hw2 := hwf e2 (List.mem_cons_of_mem e he2)
      have hkcmem : ∃ c ∈ e.2, c.1 = kc := by
        rw [akeys, List.mem_map] at hkc
        exact hkc
      obtain ⟨c1, hc1, hc1fst⟩ := hkcmem
      have heq : flatKey e.1 c1.1 = flatKey e2.1 c2.1 := by
        rw [hc1fst, hke1, hke2]
      have := flatKey_inj e.1 e2.1 c1.1 c2.1
        hw1.2.1 hw1.2.2.1 (hw1.2.2.2 c1 hc1)
        hw2.2.1 hw2.2.2.1 (hw2.2.2.2 c2 hc2) heq
      exact hnd.1 (this.1 ▸ (List.mem_map_of_mem Prod.fst he2))

theorem toFlat_inner (ta : TableAddress) :
    ∀ (cols : List (String × ColumnType)) (acc : List (String × String)),
    (akeys cols).Nodup →
    (∀ c ∈ cols, flatKey ta c.1 ∉ akeys acc) →
    cols.foldl (fun acc2 col => aset acc2 (flatKey ta col.1) col.2.value) acc
      = acc ++ flatCols ta cols := by
  intro cols
  induction cols with
  | nil => intro acc _ _; simp [flatCols]
  | cons c cols ih =>
    intro acc hnd hfresh
    rw [List.foldl_cons]
    rw [aset_fresh acc _ _ (hfresh c (List.mem_cons_self c cols))]
    rw [akeys, List.map_cons, List.nodup_cons] at hnd
    have hfresh2 : ∀ c2 ∈ cols,
        flatKey ta c2.1 ∉ akeys (acc ++ [(flatKey ta c.1, c.2.value)]) := by
      intro c2 hc2
      rw [akeys_append, List.mem_append]
      intro hmem
      rcases hmem with hmem | hmem
      · exact hfresh c2 (List.mem_cons_of_mem c hc2) hmem
      · have hke : flatKey ta c2.1 = flatKey ta c.1 := by
          simpa [akeys] using hmem
        have := flatKey_inj_col ta c2.1 c.1 hke
        exact hnd.1 (this ▸ (List.mem_map_of_mem Prod.fst hc2))
    rw [ih (acc ++ [(flatKey ta c.1, c.2.value)]) hnd.2 hfresh2]
    rw [List.append_assoc]
    rfl

theorem toFlat_fold :
    ∀ (st : List (TableAddress × List (String × ColumnType)))
      (acc : List (String × String)),
    (akeys (flatStore st)).Nodup →
    (∀ k ∈ akeys (flatStore st), k ∉ akeys acc) →
    st.foldl
      (fun acc entry =>
        entry.2.foldl
          (fun acc2 col => aset acc2 (flatKey entry.1 col.1) col.2.value) acc)
      acc
      = acc ++ flatStore st := by
  intro st
  induction st with
  | nil => intro acc _ _; simp [flatStore]
  | cons e st ih =>
    intro acc hnd hfresh
    rw [flatStore, akeys_append, List.nodup_append] at hnd
    rw [List.foldl_cons]
    have hinner : (akeys e.2).Nodup := by
      have h1 := hnd.1
      rw [akeys_flatCols] at h1
      exact h1.of_map
    have hfr1 : ∀ c ∈ e.2, flatKey e.1 c.1 ∉ akeys acc := by
      intro c hc
      refine hfresh (flatKey e.1 c.1) ?_
      rw [flatStore, akeys_append, List.mem_append]
      left
      rw [akeys_flatCols]
      exact List.mem_map_of_mem (flatKey e.1)
        (List.mem_map_of_mem Prod.fst hc)
    rw [toFlat_inner e.1 e.2 acc hinner hfr1]
    have hfr2 : ∀ k ∈ akeys (flatStore st),
        k ∉ akeys (acc ++ flatCols e.1 e.2) := by
      intro k hk
      rw [akeys_append, List.mem_append]
      intro hmem
      rcases hmem with hmem | hmem
      · refine hfresh k ?_ hmem
        rw [flatStore, akeys_append, List.mem_append]
        exact Or.inr hk
      · exact hnd.2.2 hmem hk
    rw [ih (acc ++ flatCols e.1 e.2) hnd.2.1 hfr2]
    rw [List.append_assoc]
    rfl

theorem toFlatDict_eq_flatStore (st : ColumnTypeMapStore)
    (h : (akeys (flatStore st)).Nodup) :
    ColumnTypeMapStore.toFlatDict st = flatStore st := by
  have h0 := toFlat_fold st [] h (by simp [akeys])
  rw [List.nil_append] at h0
  exact h0

theorem parseFlatJson_render (d : List (String × String)) :
    parseFlatJson (renderFlatJson d) = some d := by
  cases d with
  | nil => rfl
  | cons kv rest =>
    have hne : ¬ (rEntries (kv :: rest) ++ ['\x7d'] = ['\x7d']) := by
      intro he
      have hlen := congrArg List.length he
      rw [List.length_append] at hlen
      simp only [List.length_singleton] at hlen
      have hpos := rEntries_pos kv rest
      omega
    have hfuel : (rEntries (kv :: rest)).length
        ≤ (rEntries (kv :: rest) ++ ['\x7d']).length := by
      rw [List.length_append]
      omega
    simp only [renderFlatJson, parseFlatJson]
    rw [if_pos trivial, if_neg hne]
    rw [parseEntriesLoop_rEntries (kv :: rest) _ (by simp) hfuel]

theorem fromFlatAux_step (acc : ColumnTypeMapStore) (ta : TableAddress)
    (col : String) (ty : ColumnType) (rest : List (String × String))
    (hs : ':' ∉ ta.schema.data) (ht : ':' ∉ ta.table.data)
    (hc : ':' ∉ col.data) :
    fromFlatAux acc ((flatKey ta col, ty.value) :: rest)
      = fromFlatAux (acc.add ta col ty) rest := by
  have hsplit : splitAll ':' (flatKey ta col).data
      = [ta.schema.data, ta.table.data, col.data] := by
    rw [flatKey_data]
    exact splitAll_three _ _ _ hs ht hc
  simp only [fromFlatAux]
  simp only [hsplit, columnType_ofValue_value]

theorem fromFlatAux_block (ta : TableAddress)
    (hs : ':' ∉ ta.schema.data) (ht : ':' ∉ ta.table.data) :
    ∀ (cols : List (String × ColumnType)) (acc : ColumnTypeMapStore)
      (rest : List (String × String)),
    (∀ c ∈ cols, ':' ∉ c.1.data) →
    fromFlatAux acc (flatCols ta cols ++ rest)
      = fromFlatAux
          (cols.foldl (fun a c => ColumnTypeMapStore.add a ta c.1 c.2) acc)
          rest := by
  intro cols
  induction cols with
  | nil => intro acc rest _; simp [flatCols]
  | cons c cols ih =>
    intro acc rest hcf
    have h1 : flatCols ta (c :: cols) ++ rest
        = (flatKey ta c.1, c.2.value) :: (flatCols ta cols ++ rest) := by
      simp [flatCols]
    rw [h1, fromFlatAux_step acc ta c.1 c.2 _ hs ht
      (hcf c (List.mem_cons_self c cols))]
    rw [ih (acc.add ta c.1 c.2) rest
      (fun c2 hc2 => hcf c2 (List.mem_cons_of_mem c hc2))]
    rfl

theorem add_fold_block (ta : TableAddress) :
    ∀ (cols done : List (String × ColumnType))
      (acc : List (TableAddress × List (String × ColumnType))),
    ta ∉ akeys acc →
    (∀ c ∈ cols, c.1 ∉ akeys done) →
    (akeys cols).Nodup →
    cols.foldl (fun a c => ColumnTypeMapStore.add a ta c.1 c.2)
        (acc ++ [(ta, done)])
      = acc ++ [(ta, done ++ cols)] := by
  intro cols
  induction cols with
  | nil => intro done acc _ _ _; simp
  | cons c cols ih =>
    intro done acc hta hfresh hnd
    rw [List.foldl_cons]
    have hcur : alookup (acc ++ [(ta, done)]) ta = some done := by
      rw [alookup_append_left acc _ ta hta]
      simp [alookup]
    have hadd : ColumnTypeMapStore.add (acc ++ [(ta, done)]) ta c.1 c.2
        = acc ++ [(ta, done ++ [(c.1, c.2)])] := by
      unfold ColumnTypeMapStore.add
      rw [hcur]
      show aset (acc ++ [(ta, done)]) ta (aset done c.1 c.2)
        = acc ++ [(ta, done ++ [(c.1, c.2)])]
      rw [aset_fresh done c.1 c.2 (hfresh c (List.mem_cons_self c cols))]
      exact aset_append_last acc ta done _ hta
    rw [hadd]
    rw [akeys, List.map_cons, List.nodup_cons] at hnd
    have hfresh2 : ∀ c2 ∈ cols, c2.1 ∉ akeys (done ++ [(c.1, c.2)]) := by
      intro c2 hc2
      rw [akeys_append, List.mem_append]
      intro hmem
      rcases hmem with hmem | hmem
      · exact hfresh c2 (List.mem_cons_of_mem c hc2) hmem
      · have : c2.1 = c.1 := by simpa [akeys] using hmem
        exact hnd.1 (this ▸ (List.mem_map_of_mem Prod.fst hc2))
    rw [ih (done ++ [(c.1, c.2)]) acc hta hfresh2 hnd.2]
    rw [List.append_assoc]
    rfl

theorem add_fold_fresh (ta : TableAddress)
    (cols : List (String × ColumnType))
    (acc : List (TableAddress × List (String × ColumnType)))
    (hta : ta ∉ akeys acc) (hne : cols ≠ []) (hnd : (akeys cols).Nodup) :
    cols.foldl (fun a c => ColumnTypeMapStore.add a ta c.1 c.2) acc
      = acc ++ [(ta, cols)] := by
  cases cols with
  | nil => cases hne rfl
  | cons c cols =>
    rw [List.foldl_cons]
    have hadd : ColumnTypeMapStore.add acc ta c.1 c.2
        = acc ++ [(ta, [(c.1, c.2)])] := by
      unfold ColumnTypeMapStore.add
      rw [(alookup_none_iff acc ta).2 hta]
      show aset acc ta (aset [] c.1 c.2) = acc ++ [(ta, [(c.1, c.2)])]
      rw [aset_fresh acc ta _ hta]
      rfl
    rw [hadd]
    rw [akeys, List.map_cons, List.nodup_cons] at hnd
    have hfresh : ∀ c2 ∈ cols, c2.1 ∉ akeys [(c.1, c.2)] := by
      intro c2 hc2
      intro hmem
      have : c2.1 = c.1 := by simpa [akeys] using hmem
      exact hnd.1 (this ▸ (List.mem_map_of_mem Prod.fst hc2))
    rw [add_fold_block ta cols [(c.1, c.2)] acc hta hfresh hnd.2]
    rfl

theorem fromFlat_flatStore :
    ∀ (st acc : List (TableAddress × List (String × ColumnType))),
    (∀ e ∈ st, e.1 ∉ akeys acc) →
    (akeys st).Nodup →
    (∀ e ∈ st, e.2 ≠ [] ∧ (akeys e.2).Nodup ∧ ':' ∉ e.1.schema.data ∧
      ':' ∉ e.1.table.data ∧ ∀ c ∈ e.2, ':' ∉ c.1.data) →
    fromFlatAux acc (flatStore st) = .ok (acc ++ st) := by
  intro st
  induction st with
  | nil => intro acc _ _ _; simp [flatStore, fromFlatAux]
  | cons e st ih =>
    intro acc hfresh hnd hwf
    have hw := hwf e (List.mem_cons_self e st)
    rw [flatStore]
    rw [fromFlatAux_block e.1 hw.2.2.1 hw.2.2.2.1 e.2 acc _ hw.2.2.2.2]
    rw [add_fold_fresh e.1 e.2 acc (hfresh e (List.mem_cons_self e st))
      hw.1 hw.2.1]
    rw [akeys, List.map_cons, List.nodup_cons] at hnd
    have hfresh2 : ∀ e2 ∈ st, e2.1 ∉ akeys (acc ++ [(e.1, e.2)]) := by
      intro e2 he2
      rw [akeys_append, List.mem_append]
      intro hmem
      rcases hmem with hmem | hmem
      · exact hfresh e2 (List.mem_cons_of_mem e he2) hmem
      · have : e2.1 = e.1 := by simpa [akeys] using hmem
        exact hnd.1 (this ▸ (List.mem_map_of_mem Prod.fst he2))
    rw [ih (acc ++ [(e.1, e.2)]) hfresh2 hnd.2
      (fun e2 he2 => hwf e2 (List.mem_cons_of_mem e he2))]
    rw [List.append_assoc]
    rfl

theorem renderFlatJson_ne_empty (d : List (String × String)) :
    ¬ (renderFlatJson d = "") := by
  intro h
  have h2 : '\x7b' :: (rEntries d ++ ['\x7d']) = ([] : List Char) :=
    congrArg String.data h
  exact List.cons_ne_nil _ _ h2

theorem fromFlatDict_cons (kv : String × String) (tail : List (String × String))
    (store : ColumnTypeMapStore)
    (h : fromFlatAux [] (kv :: tail) = .ok store) :
    ColumnTypeMapStore.fromFlatDict (some (kv :: tail)) = .ok (some store) := by
  unfold ColumnTypeMapStore.fromFlatDict
  simp only [h]

/-- C6: corrected round-trip law for the column-type store.  For a
non-empty `ColumnTypeMapStore` whose inner column dicts are all non-empty
(and whose addresses and column names are duplicate-free and colon-free, so
the flat `schema:table:column` key encoding is faithful),
`from_json (to_json store)` returns the store itself; and the falsy inputs
`from_json ""`, `from_json None` and `from_dict None` all yield `None`
rather than an empty store.  The law does not hold for every non-empty
store as claimed: a store with an empty inner dict serializes to the empty
flat object and round-trips to `None` (see the counterexample theorem). -/
theorem columntype_store_roundtrip
    (st : List (TableAddress × List (String × ColumnType)))
    (hne : st ≠ [])
    (hnd : (akeys st).Nodup)
    (hwf : ∀ e ∈ st, e.2 ≠ [] ∧ (akeys e.2).Nodup ∧ ':' ∉ e.1.schema.data ∧
      ':' ∉ e.1.table.data ∧ ∀ c ∈ e.2, ':' ∉ c.1.data) :
    ColumnTypeMapStore.fromJson (some (ColumnTypeMapStore.toJson st))
      = .ok (some st)
  ∧ ColumnTypeMapStore.fromJson (some "") = .ok none
  ∧ ColumnTypeMapStore.fromJson none = .ok none
  ∧ ColumnTypeMapStore.fromFlatDict none = .ok none := by
  refine ⟨?_, rfl, rfl, rfl⟩
  have hndflat : (akeys (flatStore st)).Nodup :=
    flatStore_keys_nodup st hnd
      (fun e he => ⟨(hwf e he).2.1, (hwf e he).2.2.1, (hwf e he).2.2.2.1,
        (hwf e he).2.2.2.2⟩)
  have h4 := fromFlat_flatStore st [] (fun e _ hm => by simp [akeys] at hm)
    hnd hwf
  rw [List.nil_append] at h4
  have h1 : ColumnTypeMapStore.fromJson
      (some (ColumnTypeMapStore.toJson st))
      = ColumnTypeMapStore.fromFlatDict
          (some (ColumnTypeMapStore.toFlatDict st)) := by
    simp only [ColumnTypeMapStore.fromJson, ColumnTypeMapStore.toJson]
    rw [if_neg (renderFlatJson_ne_empty _), parseFlatJson_render]
  rw [h1, toFlatDict_eq_flatStore st hndflat]
  obtain ⟨e, st2, rfl⟩ : ∃ e st2, st = e :: st2 := by
    cases st with
    | nil => cases hne rfl
    | cons a b => exact ⟨a, b, rfl⟩
  obtain ⟨c0, cols0, hc⟩ : ∃ c0 cols0, e.2 = c0 :: cols0 := by
    cases he2 : e.2 with
    | nil => cases (hwf e (List.mem_cons_self e st2)).1 he2
    | cons a b => exact ⟨a, b, rfl⟩
  have h5 : flatStore (e :: st2)
      = (flatKey e.1 c0.1, c0.2.value)
        :: (flatCols e.1 cols0 ++ flatStore st2) := by
    rw [flatStore, hc]
    simp [flatCols]
  rw [h5]
  exact fromFlatDict_cons _ _ _ (h5 ▸ h4)

/-- C6 counterexample: the store holding one table with an empty inner
column dict is a non-empty store, yet `to_json` renders it as the empty
flat object, so `from_json (to_json store)` yields `None` instead of the
store itself: the round-trip law fails for this non-empty store. -/
theorem columntype_store_empty_cols_roundtrip :
    ColumnTypeMapStore.fromJson (some (ColumnTypeMapStore.toJson
        [(⟨"public", "foo"⟩, [])]))
      = .ok none
  ∧ ([(⟨"public", "foo"⟩, ([] : List (String × ColumnType)))]
      ≠ ([] : List (TableAddress × List (String × ColumnType))))
  ∧ ((Except.ok none : Except String (Option ColumnTypeMapStore))
      = .ok (some [(⟨"public", "foo"⟩, [])]) → False) := by
  refine ⟨rfl, by decide, by decide⟩

/-- C6 witness: a concrete one-table, one-column store round-trips through
the flat JSON encoding, and the falsy inputs all map to `None`. -/
theorem columntype_store_roundtrip_witness :
    ColumnTypeMapStore.fromJson (some (ColumnTypeMapStore.toJson
        [(⟨"public", "foo"⟩, [("attributes", ColumnType.MAP)])]))
      = .ok (some [(⟨"public", "foo"⟩, [("attributes", ColumnType.MAP)])])
  ∧ ColumnTypeMapStore.fromJson (some "") = .ok none
  ∧ ColumnTypeMapStore.fromJson none = .ok none
  ∧ ColumnTypeMapStore.fromFlatDict none = .ok none :=
  columntype_store_roundtrip
    [(⟨"public", "foo"⟩, [("attributes", ColumnType.MAP)])]
    (by decide) (by decide) (by decide)

end CommonsCodec
